import Mathlib

/-!
# Verification of the trade lifecycle and mark-to-market core

A shallow embedding, in Lean 4, of the trade-lifecycle core of the
`spx_data_fetcher` repository:

* `trade/pl_analysis.py` — payoff grid, breakeven extraction and the analytic
  probability-of-profit estimator (`compute_and_store_pl_analysis`, `norm_cdf`);
* `trade/pnl_monitor.py` — the periodic PnL monitor (`update_trade_pnl`);
* `trade/trade_generator.py` — the 0DTE strategy builder (`generate_0dte_trade`).

Modelling conventions, used throughout:

* Python floats are modelled as exact numbers: `ℚ` for the bookkeeping code
  (monitor, generator, payoff grid) and `ℝ` for the transcendental
  probability estimator (`math.erf`, `math.log`, `math.sqrt`).
* The BigQuery warehouse is modelled as an explicit record of four tables
  (`DB`); SQL SELECTs become pure reads of that record, and SQL
  UPDATE/INSERT statements become functional updates.  Table references are
  resolved semantically (note: three query strings in `pnl_monitor.py` — the
  open-legs SELECT and the two EOD rollup SELECTs — lack the `f`-prefix in
  the Python source, so the table placeholders are not interpolated; the
  embedding models the evident referent tables, which is also how the
  repository's own unit tests stub them).
* Wall-clock time is ambient state in the Python code (`datetime.now`); it is
  passed explicitly: the EOD-window flag `isEod` (16:00–16:04 ET) and the
  timestamp string `now`.
* Persistence failures: each write (insert or UPDATE) consults an oracle
  `pfail : ℕ → Option String` indexed by the sequential number of the write;
  `some e` means the storage collaborator raises error `e` at that write, at
  which point the Python function aborts (uncaught exception), leaving the
  writes already performed in place.
* The final rollup UPDATE of `update_trade_pnl` passes
  `leg_params + rec_params`, in which the name `pnl` is bound twice (the last
  processed leg's raw points, then the trade's final PnL).  Following the
  repository's own tests (`test_pnl_monitor.py` builds the parameter dict by
  comprehension, so the later binding wins, and asserts the rolled-up value),
  duplicate parameter bindings are resolved last-wins: `@pnl` denotes the
  final PnL, and `@cp`/`@ts` denote the *last processed leg's* current price
  and the cycle timestamp, since those names are bound only in `leg_params`
  left over from the per-leg loop.
-/

/-- One option leg as consumed by the payoff/probability analysis of
`compute_and_store_pl_analysis` (`trade/pl_analysis.py`): the columns
`leg_type` (`"call"`/`"put"`), `direction` (`"long"`/`"short"`), `strike` and
`entry_price` selected from `trade_legs` (or passed in as `legs_data`). -/
structure PLLeg (α : Type) where
  leg_type : String
  direction : String
  strike : α
  entry_price : α
deriving DecidableEq, Repr

/-- Contribution of one leg to the payoff at underlying price `S`, in index
points: lines 128–133 of `pl_analysis.py`.  `sign` is `1` for `"long"` and
`-1` otherwise; intrinsic value is `max (S - K) 0` for a `"call"` and
`max (K - S) 0` otherwise; the signed entry cost is subtracted. -/
def legPayoff {α : Type} [LinearOrderedField α] (S : α) (l : PLLeg α) : α :=
  let sign : α := if l.direction = "long" then 1 else -1
  let intrinsic : α := if l.leg_type = "call" then max (S - l.strike) 0 else max (l.strike - S) 0
  sign * intrinsic - sign * l.entry_price

/-- Total payoff of a leg set at underlying price `S`, in index points: the
accumulation loop of lines 126–133 of `pl_analysis.py` (before the contract
multiplier of line 134). -/
def payoffPoints {α : Type} [LinearOrderedField α] (legs : List (PLLeg α)) (S : α) : α :=
  legs.foldl (fun acc l => acc + legPayoff S l) 0

/-- Entry `i` of the evenly spaced price grid
`np.linspace(spot*(1-range), spot*(1+range), n)` of lines 124–125 of
`pl_analysis.py`: `low + (high - low) * i / (n - 1)`. -/
def gridPrice {α : Type} [LinearOrderedField α] (spot urange : α) (n i : ℕ) : α :=
  let low := spot * (1 - urange)
  let high := spot * (1 + urange)
  low + (high - low) * (i : α) / ((n : α) - 1)

/-- Grid payoff at index `i`, in currency: `payoff * 100` (contract
multiplier, line 134 of `pl_analysis.py`). -/
def gridPayoff {α : Type} [LinearOrderedField α] (legs : List (PLLeg α)) (spot urange : α)
    (n i : ℕ) : α :=
  100 * payoffPoints legs (gridPrice spot urange n i)

/-- `np.sign`: `1` for positive, `-1` for negative, `0` for zero. -/
def npSign {α : Type} [LinearOrderedField α] (x : α) : Int :=
  if 0 < x then 1 else if x < 0 then -1 else 0

/-- Indices `i` with `np.diff(np.sign(payoff))[i] ≠ 0`, i.e. where the grid
payoff changes sign between `i` and `i+1`: line 138 of `pl_analysis.py`. -/
def crossIdxs {α : Type} [LinearOrderedField α] (legs : List (PLLeg α)) (spot urange : α)
    (n : ℕ) : List ℕ :=
  (List.range (n - 1)).filter
    (fun i => npSign (gridPayoff legs spot urange n (i + 1)) - npSign (gridPayoff legs spot urange n i) ≠ 0)

/-- `be_low` of lines 139–143 of `pl_analysis.py`: the grid price at the first
sign-change index, or `None` when no sign change occurs. -/
def be_low {α : Type} [LinearOrderedField α] (legs : List (PLLeg α)) (spot urange : α)
    (n : ℕ) : Option α :=
  (crossIdxs legs spot urange n).head?.map (fun i => gridPrice spot urange n i)

/-- `be_high` of lines 139–143 of `pl_analysis.py`: the grid price one past the
last sign-change index, or `None` when no sign change occurs. -/
def be_high {α : Type} [LinearOrderedField α] (legs : List (PLLeg α)) (spot urange : α)
    (n : ℕ) : Option α :=
  (crossIdxs legs spot urange n).getLast?.map (fun i => gridPrice spot urange n (i + 1))

/-- Concrete leg set for witnesses: a single long call struck at 10 with
entry price 1. -/
def legsW : List (PLLeg ℚ) := [⟨"call", "long", 10, 1⟩]

/-- The Gauss error function, the real function computed by Python's
`math.erf`: `erf x = (2/√π) ∫_0^x exp (-t²) dt`. -/
noncomputable def erf (x : ℝ) : ℝ :=
  ∫ t in (0 : ℝ)..x, (2 / Real.sqrt Real.pi) * Real.exp (-t ^ 2)

/-- `norm_cdf` of lines 35–39 of `pl_analysis.py`:
`Φ(x) = 0.5 * (1 + erf (x / √2))`. -/
noncomputable def norm_cdf (x : ℝ) : ℝ :=
  0.5 * (1 + erf (x / Real.sqrt 2))

/-- The `d2` quantity of lines 182–187 of `pl_analysis.py`:
`(log (S/K) - 0.5 σ² T) / (σ √T)`. -/
noncomputable def d2 (S K sigma T : ℝ) : ℝ :=
  (Real.log (S / K) - 0.5 * sigma ^ 2 * T) / (sigma * Real.sqrt T)

/-- The strikes of the short legs of the given option type, in leg order:
the `put_strikes` / `call_strikes` queries of lines 153–154 of
`pl_analysis.py`. -/
def shortStrikes (legs : List (PLLeg ℝ)) (otype : String) : List ℝ :=
  (legs.filter (fun l => l.leg_type == otype && l.direction == "short")).map (fun l => l.strike)

/-- The analytic probability-of-profit computation of lines 152–194 of
`pl_analysis.py`.  Inputs that the Python code obtains from collaborators are
parameters: `T_years` (time to 16:00 ET on the expiration date, floored at
zero, in years) and `ivs` (the `mid_iv` column returned by the option-chain
snapshot query; an empty list models an empty `iv_df`).  The result is
`None` unless a short put, a short call, a positive `T_years`, a non-empty
`iv_df` and a positive mean implied volatility `sigma` are all available, in
which case it is `Φ(d2_put) - Φ(d2_call)` for the first short strikes
`Kp`/`Kc`.  The Python guard `if put_strikes and call_strikes and T_years > 0`
is rendered as the match on the two strike lists plus the `0 < T_years`
test. -/
noncomputable def prob_profit (legs : List (PLLeg ℝ)) (spot : ℝ) (T_years : ℝ)
    (ivs : List ℝ) : Option ℝ :=
  match shortStrikes legs "put", shortStrikes legs "call" with
  | Kp :: _, Kc :: _ =>
    if 0 < T_years then
      match ivs with
      | [] => none
      | _ :: _ =>
        let sigma := ivs.sum / (ivs.length : ℝ)
        if 0 < sigma then
          some (norm_cdf (d2 spot Kp sigma T_years) - norm_cdf (d2 spot Kc sigma T_years))
        else none
    else none
  | _, _ => none

/-- The summary row assembled by `compute_and_store_pl_analysis`
(lines 123–243 of `pl_analysis.py`), restricted to the analysis fields
(`trade_id`, `timestamp`, Greeks and notes are bookkeeping).  `max_profit` /
`max_loss` are the extrema of the payoff grid (`Option` because `numpy`'s
`max`/`min` are undefined on an empty grid), the breakevens are the
sign-change bounds, and `probability_profit` is the analytic estimate scaled
to a percentage (`None if prob_profit is None else prob_profit * 100`,
line 238) — the code stores `None` when the analytic estimator is
inapplicable. -/
structure AnalysisRow where
  max_profit : Option ℝ
  max_loss : Option ℝ
  breakeven_lower : Option ℝ
  breakeven_upper : Option ℝ
  probability_profit : Option ℝ

/-- The pure computation inside `compute_and_store_pl_analysis`
(`pl_analysis.py`): payoff grid of `grid_points` prices spanning
`spot * (1 ± underlying_range)`, grid extrema, breakeven bounds, and the
analytic probability of profit.  `tSeconds` is the signed number of seconds
from now to 16:00 ET on the expiration date; line 150 floors it at zero and
converts to years (`T_years = max tSeconds 0 / (365*24*3600)`). -/
noncomputable def compute_pl_analysis (legs : List (PLLeg ℝ)) (spot : ℝ)
    (grid_points : ℕ) (underlying_range : ℝ) (tSeconds : ℝ) (ivs : List ℝ) : AnalysisRow :=
  let T_years := max tSeconds 0 / (365 * 24 * 3600)
  { max_profit := ((List.range grid_points).map (gridPayoff legs spot underlying_range grid_points)).max?,
    max_loss := ((List.range grid_points).map (gridPayoff legs spot underlying_range grid_points)).min?,
    breakeven_lower := be_low legs spot underlying_range grid_points,
    breakeven_upper := be_high legs spot underlying_range grid_points,
    probability_profit := (prob_profit legs spot T_years ivs).map (fun p => p * 100) }

/-- Concrete leg set with a short put but no short call: a two-leg put
vertical spread (short put 5700, long put 5690), as built by
`generate_0dte_trade("vertical_spread")`. -/
def legsV : List (PLLeg ℝ) := [⟨"put", "short", 5700, 2⟩, ⟨"put", "long", 5690, 1⟩]

/-- Concrete short-strangle leg set whose short put strike 110 is ABOVE its
short call strike 90 (with spot 100): input for the C5 counterexample. -/
def legsN : List (PLLeg ℝ) := [⟨"put", "short", 110, 2⟩, ⟨"call", "short", 90, 2⟩]

/-- Concrete short-strangle leg set with equal short strikes `Kp = Kc = 100`:
input for the C5 witness. -/
def legsEq : List (PLLeg ℝ) := [⟨"put", "short", 100, 2⟩, ⟨"call", "short", 100, 2⟩]

/-- A row of `analytics.trade_legs`, with the columns touched by the core:
identifiers, contract terms, entry price, lifecycle status and the fields
written by the monitor (`pnl`, `exit_price`, `exit_time`).  `pnl` and the
exit fields are `Option` because the generator's insert omits them (NULL)
and the monitor fills them in later. -/
structure LegRow where
  trade_id : String
  leg_id : String
  timestamp : String
  leg_type : String
  direction : String
  strike : ℚ
  entry_price : ℚ
  status : String
  notes : String
  pnl : Option ℚ
  exit_price : Option ℚ
  exit_time : Option String
deriving DecidableEq, Repr

/-- A row of `analytics.trade_recommendations`, with the columns touched by
the core.  As for legs, `pnl` and the exit fields start NULL. -/
structure TradeRow where
  trade_id : String
  strategy_type : String
  symbol : String
  timestamp : String
  entry_time : String
  expiration_date : String
  entry_price : ℚ
  status : String
  model_version : String
  notes : String
  pnl : Option ℚ
  exit_price : Option ℚ
  exit_time : Option String
deriving DecidableEq, Repr

/-- A row of `analytics.live_trade_pnl`: the immutable per-leg snapshot
inserted by lines 114–131 of `pnl_monitor.py`. -/
structure SnapRow where
  trade_id : String
  leg_id : String
  timestamp : String
  current_price : ℚ
  theoretical_pnl : ℚ
  mark_price : ℚ
  underlying_price : ℚ
  price_type : String
  underlying_symbol : String
  status : String
deriving DecidableEq, Repr

/-- A row of `analytics.trade_pl_analysis` as read back by the monitor's EOD
rollup (lines 167–183 of `pnl_monitor.py`): only `max_profit` and `max_loss`
are selected.  The list in `DB` is ordered newest-first, modelling the
`ORDER BY timestamp DESC LIMIT 1` read as `head?`. -/
structure PLRow where
  trade_id : String
  max_profit : ℚ
  max_loss : ℚ
deriving DecidableEq, Repr

/-- The warehouse: the four tables the trade-lifecycle core reads and
writes. -/
structure DB where
  trade_recs : List TradeRow
  trade_legs : List LegRow
  live_pnl : List SnapRow
  pl_analysis : List PLRow
deriving DecidableEq, Repr

/-- An error aborting an `update_trade_pnl` cycle: either a persistence
error raised by the storage collaborator (an insert or UPDATE), or the
`IndexError` raised by `info_df.query(...)["strike"].iloc[0]` at lines
195–200 of `pnl_monitor.py` when the trade has no short put / short call
leg. -/
inductive MErr where
  | persist (msg : String)
  | shortStrikeMissing (side : String)
deriving DecidableEq, Repr

/-- Per-expiry mid-price map `{(strike, option_type): mid_price}` supplied by
the caller of `update_trade_pnl`. -/
def MidMap : Type := List ((ℚ × String) × ℚ)

/-- Dictionary lookup in a `MidMap` (Python `dict.get`). -/
def lookupMid (m : MidMap) (strike : ℚ) (otype : String) : Option ℚ :=
  ((m : List ((ℚ × String) × ℚ)).find? (fun e => e.1.1 == strike && e.1.2 == otype)).map
    (fun e => e.2)

/-- Running state of one `update_trade_pnl` invocation: the evolving
warehouse, the index of the next persistence operation (for the failure
oracle), the per-trade accumulator `trade_totals` (insertion-ordered, as a
Python dict), the leftover `@cp` parameter of the last processed leg, and
the first uncaught error if one was raised. -/
structure RunSt where
  db : DB
  opIdx : ℕ
  totals : List (String × ℚ)
  lastCp : ℚ
  err : Option MErr
deriving DecidableEq, Repr

/-- The open-legs join of lines 56–75 of `pnl_monitor.py`: every
`trade_legs` row with `status = 'open'` joined (`USING(trade_id)`) with the
`trade_recommendations` rows of the given symbol, paired with the owning
trade's `expiration_date`.  Note the join has no status filter on the trade
itself. -/
def legsJoin (db : DB) (symbol : String) : List (LegRow × String) :=
  (db.trade_legs.filter (fun l => l.status == "open")).flatMap
    (fun l => (db.trade_recs.filter
        (fun r => r.trade_id == l.trade_id && r.symbol == symbol)).map
      (fun r => (l, r.expiration_date)))

/-- Current mid price of a leg, lines 95–102 of `pnl_monitor.py`: the
per-expiry map value, falling back to `0.0` at EOD (expired worthless) and
to the leg's entry price intraday (flat since entry). -/
def current_price (isEod : Bool) (perExp : MidMap) (l : LegRow) : ℚ :=
  if isEod then (lookupMid perExp l.strike l.leg_type).getD 0
  else (lookupMid perExp l.strike l.leg_type).getD l.entry_price

/-- Raw per-leg PnL in index points, lines 104–112 of `pnl_monitor.py`:
`entry - current` for a short leg, `current - entry` otherwise. -/
def raw_pts (l : LegRow) (cp : ℚ) : ℚ :=
  if l.direction == "short" then l.entry_price - cp else cp - l.entry_price

/-- The live-PnL snapshot row of lines 114–131 of `pnl_monitor.py`. -/
def snapRow (symbol now : String) (S : ℚ) (isEod : Bool) (l : LegRow) (cp raw : ℚ) : SnapRow :=
  { trade_id := l.trade_id, leg_id := l.leg_id, timestamp := now, current_price := cp,
    theoretical_pnl := raw, mark_price := cp, underlying_price := S, price_type := "mid",
    underlying_symbol := symbol,
    status := if isEod then "closed" else "open" }

/-- The per-leg UPDATE of lines 133–158 of `pnl_monitor.py`, applied to one
`trade_legs` row: rows whose `leg_id` matches get a fresh `pnl` and
`status` (`'closed'` at EOD, `'open'` intraday), and at EOD additionally
`exit_price = @cp` and `exit_time = @ts`.  There is no guard other than
`leg_id`. -/
def updLeg (legId : String) (isEod : Bool) (now : String) (raw cp : ℚ) (x : LegRow) : LegRow :=
  if x.leg_id == legId then
    { x with pnl := some raw,
             status := if isEod then "closed" else "open",
             exit_price := if isEod then some cp else x.exit_price,
             exit_time := if isEod then some now else x.exit_time }
  else x

/-- `trade_totals[leg.trade_id] = trade_totals.get(leg.trade_id, 0) + raw`
(line 161 of `pnl_monitor.py`), on an insertion-ordered association list. -/
def addTotal (ts : List (String × ℚ)) (tid : String) (x : ℚ) : List (String × ℚ) :=
  match ts with
  | [] => [(tid, x)]
  | (k, v) :: rest => if k == tid then (k, v + x) :: rest else (k, v) :: addTotal rest tid x

/-- The per-leg loop of lines 91–161 of `pnl_monitor.py`.  For each joined
open leg: compute the current price and raw PnL, insert a snapshot row
(persistence op `opIdx`), UPDATE the leg row (persistence op `opIdx + 1`),
and accumulate the raw points into `trade_totals`.  A persistence failure
raises immediately: the loop stops, keeping the writes already applied. -/
def legLoop (pfail : ℕ → Option String) (symbol : String) (midMaps : String → MidMap)
    (isEod : Bool) (now : String) (S : ℚ) :
    List (LegRow × String) → RunSt → RunSt
  | [], st => st
  | (l, expd) :: rest, st =>
    let cp := current_price isEod (midMaps expd) l
    let raw := raw_pts l cp
    match pfail st.opIdx with
    | some e => { st with opIdx := st.opIdx + 1, err := some (.persist e) }
    | none =>
      let db1 : DB := { st.db with live_pnl := st.db.live_pnl ++ [snapRow symbol now S isEod l cp raw] }
      match pfail (st.opIdx + 1) with
      | some e => { st with db := db1, opIdx := st.opIdx + 2, err := some (.persist e) }
      | none =>
        let db2 : DB := { db1 with trade_legs := db1.trade_legs.map (updLeg l.leg_id isEod now raw cp) }
        legLoop pfail symbol midMaps isEod now S rest
          { db := db2, opIdx := st.opIdx + 2,
            totals := addTotal st.totals l.trade_id raw,
            lastCp := cp, err := none }

/-- The EOD settlement PnL choice of lines 165–204 of `pnl_monitor.py`: if a
`trade_pl_analysis` row exists for the trade (latest first), look up the
trade's short put and short call strikes — `iloc[0]` on an empty selection
raises (`shortStrikeMissing`) — and pick `max_profit` when the underlying
settles between them, otherwise `max_loss`; with no analysis row, fall back
to `sum_pts * 100`. -/
def eodFinalPnl (db : DB) (S : ℚ) (tid : String) (sumPts : ℚ) : Except MErr ℚ :=
  match (db.pl_analysis.filter (fun p => p.trade_id == tid)).head? with
  | none => .ok (sumPts * 100)
  | some pl =>
    let info := db.trade_legs.filter (fun l => l.trade_id == tid)
    match (info.filter (fun l => l.direction == "short" && l.leg_type == "put")).head? with
    | none => .error (.shortStrikeMissing "put")
    | some spLeg =>
      match (info.filter (fun l => l.direction == "short" && l.leg_type == "call")).head? with
      | none => .error (.shortStrikeMissing "call")
      | some scLeg =>
        .ok (if spLeg.strike ≤ S ∧ S ≤ scLeg.strike then pl.max_profit else pl.max_loss)

/-- The `trade_recommendations` UPDATE of lines 212–233 of `pnl_monitor.py`,
applied to one row.  The WHERE clause is `trade_id = @tid AND status !=
'closed'`.  Per the duplicate-parameter convention (see the header), `@pnl`
is the trade's final PnL; at EOD `exit_price = @cp` (the LAST processed
leg's current price, from the leftover `leg_params`) and `exit_time = @ts`;
intraday the SET clause assigns `exit_price = exit_price` and
`exit_time = exit_time` (no-ops). -/
def tradeRecUpd (tid : String) (finalPnl : ℚ) (newStatus : String) (isEod : Bool)
    (cp : ℚ) (now : String) (r : TradeRow) : TradeRow :=
  if r.trade_id == tid && r.status != "closed" then
    { r with pnl := some finalPnl, status := newStatus,
             exit_price := if isEod then some cp else r.exit_price,
             exit_time := if isEod then some now else r.exit_time }
  else r

/-- The per-trade rollup loop of lines 163–233 of `pnl_monitor.py`: for each
accumulated `(trade_id, sum_pts)`, choose the final PnL (EOD: `eodFinalPnl`;
intraday: `sum_pts * 100` with status `'active'`) and issue the guarded
UPDATE (one persistence op).  An error — the `iloc[0]` IndexError or a
persistence failure — stops the loop. -/
def rollup (pfail : ℕ → Option String) (isEod : Bool) (now : String) (S : ℚ) :
    List (String × ℚ) → RunSt → RunSt
  | [], st => st
  | (tid, sumPts) :: rest, st =>
    match st.err with
    | some _ => st
    | none =>
      match (if isEod then eodFinalPnl st.db S tid sumPts else .ok (sumPts * 100)) with
      | .error e => { st with err := some e }
      | .ok finalPnl =>
        match pfail st.opIdx with
        | some e => { st with opIdx := st.opIdx + 1, err := some (.persist e) }
        | none =>
          let newStatus := if isEod then "closed" else "active"
          let f := tradeRecUpd tid finalPnl newStatus isEod st.lastCp now
          let db' : DB := { st.db with trade_recs := st.db.trade_recs.map f }
          rollup pfail isEod now S rest { st with opIdx := st.opIdx + 1, db := db' }

/-- `update_trade_pnl` of `trade/pnl_monitor.py`, as one pure transition on
the warehouse.  Explicit inputs replace ambient state: `pfail` is the
persistence-failure oracle, `quote` is `quote["last"]` when present
(`none` models a missing/invalid quote dict), `midMaps` is the per-expiry
mid-price lookup, `isEod` the 16:00–16:04 ET window flag and `now` the cycle
timestamp.  Steps: (1) join open legs for the symbol — if none, no-op;
(2) require the quote — if absent, no-op; (3) per-leg snapshot + UPDATE
loop; (4) per-trade rollup with the guarded `trade_recommendations`
UPDATE. -/
def update_trade_pnl (pfail : ℕ → Option String) (symbol : String) (quote : Option ℚ)
    (midMaps : String → MidMap) (isEod : Bool) (now : String) (db : DB) : RunSt :=
  let lj := legsJoin db symbol
  if lj.isEmpty then { db := db, opIdx := 0, totals := [], lastCp := 0, err := none }
  else
    match quote with
    | none => { db := db, opIdx := 0, totals := [], lastCp := 0, err := none }
    | some S =>
      let st1 := legLoop pfail symbol midMaps isEod now S lj
        { db := db, opIdx := 0, totals := [], lastCp := 0, err := none }
      rollup pfail isEod now S st1.totals st1

/-- The all-writes-succeed persistence oracle. -/
def okO : ℕ → Option String := fun _ => none

/-- Builder for concrete `trade_recommendations` rows used in witnesses. -/
def mkTrade (tid sym exp : String) (entry : ℚ) (status : String) : TradeRow :=
  { trade_id := tid, strategy_type := "iron_condor", symbol := sym, timestamp := "t0",
    entry_time := "t0", expiration_date := exp, entry_price := entry, status := status,
    model_version := "v1", notes := "", pnl := none, exit_price := none, exit_time := none }

/-- Builder for concrete `trade_legs` rows used in witnesses. -/
def mkLeg (tid lid ltype dir : String) (strike entry : ℚ) (status : String) : LegRow :=
  { trade_id := tid, leg_id := lid, timestamp := "t0", leg_type := ltype, direction := dir,
    strike := strike, entry_price := entry, status := status, notes := "",
    pnl := none, exit_price := none, exit_time := none }

/-- C1 witness input: one CLOSED trade (with recorded pnl/exit data) that
still owns an open leg, so the rollup loop does reach its guarded UPDATE. -/
def dbW1 : DB :=
  { trade_recs := [{ mkTrade "T1" "SPX" "E" 10 "closed" with
      pnl := some 50, exit_price := some 60, exit_time := some "t1" }],
    trade_legs := [mkLeg "T1" "L1" "call" "long" 100 5 "open"],
    live_pnl := [], pl_analysis := [] }

/-- C2 counterexample input: one active trade `T1` (entry price 10) with two
open long call legs (entries 5 and 2), expiring on `"E"`. -/
def dbC2 : DB :=
  { trade_recs := [mkTrade "T1" "SPX" "E" 10 "active"],
    trade_legs := [mkLeg "T1" "L1" "call" "long" 100 5 "open",
                   mkLeg "T1" "L2" "call" "long" 105 2 "open"],
    live_pnl := [], pl_analysis := [] }

/-- C2 counterexample mid-price map: at expiry `"E"`, mid 7 for the 100 call
and mid 1 for the 105 call. -/
def mmC2 : String → MidMap := fun e =>
  if e == "E" then ([((100, "call"), 7), ((105, "call"), 1)] : List ((ℚ × String) × ℚ)) else []

/-- C4 failing input: an active two-leg put vertical spread (short put 5700,
long put 5690, both open) that HAS a stored PLAnalysis row — the shape
produced by `generate_0dte_trade("vertical_spread")` followed by
`compute_and_store_pl_analysis`. -/
def dbV : DB :=
  { trade_recs := [mkTrade "TV" "SPX" "E" (-1) "active"],
    trade_legs := [mkLeg "TV" "LV1" "put" "short" 5700 2 "open",
                   mkLeg "TV" "LV2" "put" "long" 5690 1 "open"],
    live_pnl := [],
    pl_analysis := [{ trade_id := "TV", max_profit := 100, max_loss := -900 }] }

/-- Persistence oracle failing exactly at the first write. -/
def pfailW : ℕ → Option String := fun k => if k == 0 then some "boom" else none

/-- The fields of a leg row that the monitor never rewrites: identifier,
direction, option type and strike. -/
def keyOf (l : LegRow) : String × String × String × ℚ :=
  (l.trade_id, l.direction, l.leg_type, l.strike)

/-- Pure characterisation of the `trade_totals` dict accumulated by an
error-free per-leg loop over the joined legs. -/
def totalsOf (midMaps : String → MidMap) (isEod : Bool)
    (lj : List (LegRow × String)) (init : List (String × ℚ)) : List (String × ℚ) :=
  lj.foldl (fun acc p => addTotal acc p.1.trade_id
    (raw_pts p.1 (current_price isEod (midMaps p.2) p.1))) init

/-- Pure characterisation of the leftover `@cp` parameter after an error-free
per-leg loop: the current price of the last joined leg (or the default if no
leg was processed). -/
def lastCpOf (midMaps : String → MidMap) (isEod : Bool)
    (lj : List (LegRow × String)) (dflt : ℚ) : ℚ :=
  match lj.getLast? with
  | none => dflt
  | some p => current_price isEod (midMaps p.2) p.1

/-- One deduplicated option snapshot row as consumed by
`generate_0dte_trade` (`trade/trade_generator.py`): the freshest
bid/ask/delta per `(strike, option_type)` (the inner `ROW_NUMBER` query of
lines 75–99 guarantees one row per key, so lookups on this list are keyed
uniquely). -/
structure OptRow where
  strike : ℚ
  option_type : String
  bid : ℚ
  ask : ℚ
  delta : ℚ
deriving DecidableEq, Repr

/-- Outcome of one `insert_rows_json` call in the generator: `ok` (no
errors), `errs` (the API returns a non-empty error list: the row is not
inserted and the code logs and returns), or `raised` (the client raises: the
row is not inserted and the exception travels to the enclosing
`try`/`except`). -/
inductive InsRes where
  | ok
  | errs (msg : String)
  | raised (msg : String)
deriving DecidableEq, Repr

/-- One selected strategy leg (`direction`/`type`/`strike` dicts of lines
122–139 of `trade_generator.py`); `ltype` renders the Python key `type`. -/
structure LegSpec where
  direction : String
  ltype : String
  strike : ℚ
deriving DecidableEq, Repr

/-- Explicit inputs of one `generate_0dte_trade` invocation.  `spot` is the
result of the SPX spot query (`none` = empty), `chain` the deduplicated 0DTE
snapshot, `target_delta`/`wing_width` the `TARGET_DELTA`/`WING_WIDTH`
configuration constants (imported from `common.config`; the spec gives
defaults 0.10 and 10), `recIns`/`legIns` the outcomes of the two
`insert_rows_json` calls, `now` the timestamp used for the trade id and row
timestamps, and `expiry` today's expiration date string. -/
structure GenCfg where
  spot : Option ℚ
  chain : List OptRow
  strategy_type : String
  target_delta : ℚ
  wing_width : ℚ
  recIns : InsRes
  legIns : InsRes
  now : String
  expiry : String
  model_version : String
deriving DecidableEq, Repr

/-- Pandas `idxmin` over a non-empty list: the FIRST element attaining the
minimum of `f`. -/
def idxminBy {α : Type} (f : α → ℚ) : List α → Option α
  | [] => none
  | x :: xs => some (xs.foldl (fun b y => if f y < f b then y else b) x)

/-- `_closest_strike` of lines 34–39 of `trade_generator.py`: the strike in
`available` closest to `target` (first occurrence on ties, per `idxmin`). -/
def closest_strike (available : List ℚ) (target : ℚ) : Option ℚ :=
  idxminBy (fun s => |s - target|) available

/-- Strike selection of lines 104–143 of `trade_generator.py`; `none` models
every pre-persistence abort: missing puts/calls for the strategy or an
unknown `strategy_type`.  (The inner `none` match arms are unreachable:
`idxminBy`/`closest_strike` return `some` on the non-empty lists guarded
just above.) -/
def chooseLegs (cfg : GenCfg) : Option (List LegSpec) :=
  let puts := cfg.chain.filter (fun o => o.option_type == "put")
  let calls := cfg.chain.filter (fun o => o.option_type == "call")
  if cfg.strategy_type == "iron_condor" then
    if puts.isEmpty || calls.isEmpty then none
    else
      match idxminBy (fun o => |(|o.delta|) - cfg.target_delta|) puts,
          idxminBy (fun o => |(|o.delta|) - cfg.target_delta|) calls with
      | some sp, some sc =>
        match closest_strike (puts.map (fun o => o.strike)) (sp.strike - cfg.wing_width),
            closest_strike (calls.map (fun o => o.strike)) (sc.strike + cfg.wing_width) with
        | some lp, some lc =>
          some [⟨"short", "put", sp.strike⟩, ⟨"long", "put", lp⟩,
            ⟨"short", "call", sc.strike⟩, ⟨"long", "call", lc⟩]
        | _, _ => none
      | _, _ => none
  else if cfg.strategy_type == "vertical_spread" then
    if puts.isEmpty then none
    else
      match idxminBy (fun o => |(|o.delta|) - cfg.target_delta|) puts with
      | some sp =>
        match closest_strike (puts.map (fun o => o.strike)) (sp.strike - cfg.wing_width) with
        | some lp => some [⟨"short", "put", sp.strike⟩, ⟨"long", "put", lp⟩]
        | none => none
      | none => none
  else none

/-- The mid-price map of lines 145–147 of `trade_generator.py`:
`(bid + ask) / 2` for the chain row with the given key (unique per key after
deduplication). -/
def midOf (chain : List OptRow) (strike : ℚ) (otype : String) : Option ℚ :=
  (chain.find? (fun o => o.strike == strike && o.option_type == otype)).map
    (fun o => (o.bid + o.ask) / 2)

/-- The missing-price validation and pricing of lines 149–159: `none` iff
some selected leg has no mid price (the abort of line 153); otherwise each
leg paired with its mid. -/
def pricedLegs (chain : List OptRow) (legs : List LegSpec) : Option (List (LegSpec × ℚ)) :=
  legs.mapM (fun L => (midOf chain L.strike L.ltype).map (fun m => (L, m)))

/-- Net entry price of lines 155–159: signed sum of mids, long positive. -/
def netEntryPrice (priced : List (LegSpec × ℚ)) : ℚ :=
  (priced.map (fun p => if p.1.direction == "long" then p.2 else -p.2)).sum

/-- `trade_id` of line 162: upper-cased strategy plus timestamp. -/
def genTradeId (cfg : GenCfg) : String :=
  cfg.strategy_type.toUpper ++ "_" ++ cfg.now

/-- The `trade_recommendations` row insert of lines 161–175 (the dict `rec`;
`pnl`/exit fields absent, i.e. NULL). -/
def recRowOf (cfg : GenCfg) (priced : List (LegSpec × ℚ)) : TradeRow :=
  { trade_id := genTradeId cfg, strategy_type := cfg.strategy_type, symbol := "SPX",
    timestamp := cfg.now, entry_time := cfg.now, expiration_date := cfg.expiry,
    entry_price := netEntryPrice priced, status := "active",
    model_version := cfg.model_version,
    notes := "Auto-generated 0DTE " ++ cfg.strategy_type,
    pnl := none, exit_price := none, exit_time := none }

/-- The `trade_legs` rows of lines 180–196 (status `'open'`, per-leg entry
price; Python's numeric string formatting is rendered by `toString`). -/
def legRowsOf (cfg : GenCfg) (priced : List (LegSpec × ℚ)) : List LegRow :=
  priced.map (fun p =>
    { trade_id := genTradeId cfg,
      leg_id := genTradeId cfg ++ "_" ++ p.1.ltype.toUpper ++ "_" ++ toString p.1.strike,
      timestamp := cfg.now, leg_type := p.1.ltype, direction := p.1.direction,
      strike := p.1.strike, entry_price := p.2, status := "open",
      notes := p.1.direction ++ " " ++ p.1.ltype ++ " @ " ++ toString p.1.strike,
      pnl := none, exit_price := none, exit_time := none })

/-- Result of the TRY BLOCK of `generate_0dte_trade`: the warehouse after
whatever writes happened, plus the exception reaching the `except` clause,
if any. -/
structure GenOut where
  db : DB
  raised : Option String
deriving DecidableEq, Repr

/-- The body (`try` block) of `generate_0dte_trade`
(`trade/trade_generator.py` lines 54–218) as one pure transition: abort with
no write on missing spot, empty chain, failed strike selection or missing
mid price; insert the trade row; on reported insert errors return early, on
a raise propagate to the `except`; then insert the leg rows likewise.  The
final `compute_and_store_pl_analysis` call (line 216) only appends to the
`trade_pl_analysis` table after both inserts succeed and is omitted here; it
does not affect the trade/leg rows. -/
def generate_0dte_trade_body (cfg : GenCfg) (db : DB) : GenOut :=
  match cfg.spot with
  | none => ⟨db, none⟩
  | some _ =>
    if cfg.chain.isEmpty then ⟨db, none⟩
    else
      match chooseLegs cfg with
      | none => ⟨db, none⟩
      | some legs =>
        match pricedLegs cfg.chain legs with
        | none => ⟨db, none⟩
        | some priced =>
          match cfg.recIns with
          | .errs _ => ⟨db, none⟩
          | .raised e => ⟨db, some e⟩
          | .ok =>
            let db1 : DB := { db with trade_recs := db.trade_recs ++ [recRowOf cfg priced] }
            match cfg.legIns with
            | .errs _ => ⟨db1, none⟩
            | .raised e => ⟨db1, some e⟩
            | .ok => ⟨{ db1 with trade_legs := db1.trade_legs ++ legRowsOf cfg priced }, none⟩

/-- `generate_0dte_trade` as seen by its caller: the whole body runs inside
`try ... except Exception: logging.exception(...)` (lines 54 and 220–221),
so every exception — including persistence errors — is swallowed and the
caller receives only the resulting warehouse state. -/
def generate_0dte_trade (cfg : GenCfg) (db : DB) : DB :=
  (generate_0dte_trade_body cfg db).db

/-- Concrete vertical-spread chain: puts struck at 5 (mid 2, delta -0.10)
and 4 (mid 1, delta -0.05). -/
def chainV : List OptRow :=
  [⟨5, "put", 1, 3, -(1/10)⟩, ⟨4, "put", 1/2, 3/2, -(1/20)⟩]

/-- Generator input whose validation succeeds (short put 5, long put 4) but
whose LEGS insert fails with a reported error. -/
def cfgV : GenCfg :=
  { spot := some 5, chain := chainV, strategy_type := "vertical_spread",
    target_delta := 1/10, wing_width := 1, recIns := InsRes.ok,
    legIns := InsRes.errs "boom", now := "t0", expiry := "E", model_version := "v1" }

/-- As `cfgV` but with both inserts succeeding. -/
def cfgVok : GenCfg := { cfgV with legIns := InsRes.ok }

/-- As `cfgV` but with the TRADE insert raising. -/
def cfgVraise : GenCfg := { cfgV with recIns := InsRes.raised "boom" }

/-- The selected and priced legs of `cfgV`. -/
def pricedV : List (LegSpec × ℚ) := [(⟨"short", "put", 5⟩, 2), (⟨"long", "put", 4⟩, 1)]

/-- An empty warehouse. -/
def emptyDB : DB := ⟨[], [], [], []⟩

/- ------------------------------------------------------------------ -/
/- Theorems                                                            -/
/- ------------------------------------------------------------------ -/

theorem payoffPoints_eq_sum {α : Type} [LinearOrderedField α] (legs : List (PLLeg α)) (S : α) :
    payoffPoints legs S = (legs.map (legPayoff S)).sum := by
  have h : ∀ (l : List (PLLeg α)) (a : α),
      l.foldl (fun acc x => acc + legPayoff S x) a = a + (l.map (legPayoff S)).sum := by
    intro l
    induction l with
    | nil => intro a; simp
    | cons x xs ih =>
      intro a
      simp only [List.foldl_cons, List.map_cons, List.sum_cons, ih]
      ring
  simpa using h legs 0

/-- C7: the payoff model is a pure function of the legs and the underlying
price: each leg contributes `sign * intrinsic - sign * entry_price` with
`sign = 1` for long and `-1` for short, summed over all legs; in particular a
single long call struck at `K` with entry `e` pays `max (S - K) 0 - e`, and a
single short put pays `e - max (K - S) 0`, for every `S`. -/
theorem c7_payoff_model (K e S : ℚ) :
    payoffPoints [⟨"call", "long", K, e⟩] S = max (S - K) 0 - e
    ∧ payoffPoints [⟨"put", "short", K, e⟩] S = e - max (K - S) 0
    ∧ ∀ legs : List (PLLeg ℚ), payoffPoints legs S = (legs.map (legPayoff S)).sum := by
  refine ⟨?_, ?_, fun legs => payoffPoints_eq_sum legs S⟩
  · simp [payoffPoints, legPayoff]
  · simp [payoffPoints, legPayoff]
    ring

theorem sorted_head_le_getLast : ∀ (l : List ℕ), l.Sorted (· < ·) →
    ∀ (h : l ≠ []), l.head h ≤ l.getLast h := by
  intro l
  induction l with
  | nil => intro _ h; exact absurd rfl h
  | cons a t ih =>
    intro hs h
    cases t with
    | nil => simp
    | cons b u =>
      have hs' : (b :: u).Sorted (· < ·) := (List.sorted_cons.mp hs).2
      have hab : ∀ x ∈ b :: u, a < x := (List.sorted_cons.mp hs).1
      have h2 : (b :: u) ≠ [] := by simp
      have := ih hs' h2
      have hmem : (b :: u).getLast h2 ∈ b :: u := List.getLast_mem h2
      have : a < (b :: u).getLast h2 := hab _ hmem
      rw [List.getLast_cons h2]
      simpa using this.le

theorem crossIdxs_sorted {α : Type} [LinearOrderedField α] (legs : List (PLLeg α))
    (spot urange : α) (n : ℕ) : (crossIdxs legs spot urange n).Sorted (· < ·) :=
  (List.sorted_lt_range (n - 1)).sublist (List.filter_sublist _)

theorem gridPrice_mono {α : Type} [LinearOrderedField α] (spot urange : α) (n : ℕ)
    (hspot : 0 ≤ spot) (hr : 0 ≤ urange) (hn : 2 ≤ n) {i j : ℕ} (hij : i ≤ j) :
    gridPrice spot urange n i ≤ gridPrice spot urange n j := by
  unfold gridPrice
  have hden : (0 : α) < (n : α) - 1 := by
    have : (2 : α) ≤ (n : α) := by exact_mod_cast Nat.cast_le.mpr hn
    linarith
  have hnum : (0 : α) ≤ spot * (1 + urange) - spot * (1 - urange) := by
    have : spot * (1 + urange) - spot * (1 - urange) = 2 * spot * urange := by ring
    rw [this]
    positivity
  have hcast : (i : α) ≤ (j : α) := by exact_mod_cast hij
  have hmul : (spot * (1 + urange) - spot * (1 - urange)) * (i : α)
      ≤ (spot * (1 + urange) - spot * (1 - urange)) * (j : α) :=
    mul_le_mul_of_nonneg_left hcast hnum
  have hdiv := div_le_div_of_nonneg_right hmul hden.le
  linarith

/-- C6: whenever the payoff over the price grid has at least one sign change
the reported breakeven bounds satisfy `be_low ≤ be_high`, and whenever it has
none both bounds are surfaced as `None` (not silently defaulted) — for every
leg set, on the grid built around a nonnegative spot with nonnegative range. -/
theorem c6_breakeven_bounds (legs : List (PLLeg ℚ)) (spot urange : ℚ) (n : ℕ)
    (hspot : 0 ≤ spot) (hr : 0 ≤ urange) :
    (crossIdxs legs spot urange n ≠ [] →
      ∃ bl bh : ℚ, be_low legs spot urange n = some bl
        ∧ be_high legs spot urange n = some bh ∧ bl ≤ bh)
    ∧ (crossIdxs legs spot urange n = [] →
      be_low legs spot urange n = none ∧ be_high legs spot urange n = none) := by
  constructor
  · intro hne
    have hsorted := crossIdxs_sorted legs spot urange n
    set c := crossIdxs legs spot urange n with hc
    have hhead : c.head? = some (c.head hne) := List.head?_eq_head hne
    have hlast : c.getLast? = some (c.getLast hne) := List.getLast?_eq_getLast c hne
    refine ⟨gridPrice spot urange n (c.head hne),
            gridPrice spot urange n (c.getLast hne + 1), ?_, ?_, ?_⟩
    · unfold be_low
      rw [← hc, hhead]
      rfl
    · unfold be_high
      rw [← hc, hlast]
      rfl
    · have hmem : c.head hne ∈ c := List.head_mem hne
      have hmem2 : c.head hne ∈ crossIdxs legs spot urange n := hmem
      have hmemrange : c.head hne ∈ List.range (n - 1) := by
        unfold crossIdxs at hmem2
        exact List.mem_of_mem_filter hmem2
      have hlt : c.head hne < n - 1 := List.mem_range.mp hmemrange
      have hn2 : 2 ≤ n := by omega
      have hle : c.head hne ≤ c.getLast hne + 1 :=
        le_trans (sorted_head_le_getLast c hsorted hne) (Nat.le_succ _)
      exact gridPrice_mono spot urange n hspot hr hn2 hle
  · intro hemp
    unfold be_low be_high
    rw [hemp]
    simp

/-- Witness for C6 at a concrete input: a single long call (strike 10,
entry 1) on a 5-point grid around spot 10 with range 1/2 has exactly one sign
change, and the reported bounds are `some 10 ≤ some (25/2)`. -/
theorem c6_witness :
    ∃ bl bh : ℚ, be_low legsW 10 (1/2) 5 = some bl
      ∧ be_high legsW 10 (1/2) 5 = some bh ∧ bl ≤ bh :=
  (c6_breakeven_bounds legsW 10 (1/2) 5 (by norm_num) (by norm_num)).1
    (of_decide_eq_true (by with_unfolding_all rfl))

theorem erf_integrand_continuous :
    Continuous (fun t : ℝ => (2 / Real.sqrt Real.pi) * Real.exp (-t ^ 2)) := by
  fun_prop

theorem erf_integrand_pos (t : ℝ) : 0 < (2 / Real.sqrt Real.pi) * Real.exp (-t ^ 2) :=
  mul_pos (div_pos two_pos (Real.sqrt_pos.mpr Real.pi_pos)) (Real.exp_pos _)

theorem erf_intervalIntegrable (a b : ℝ) :
    IntervalIntegrable (fun t : ℝ => (2 / Real.sqrt Real.pi) * Real.exp (-t ^ 2))
      MeasureTheory.volume a b :=
  erf_integrand_continuous.intervalIntegrable a b

theorem erf_strictMono : StrictMono erf := by
  intro a b hab
  have hsplit := intervalIntegral.integral_add_adjacent_intervals
    (erf_intervalIntegrable 0 a) (erf_intervalIntegrable a b)
  have hpos := intervalIntegral.intervalIntegral_pos_of_pos
    (erf_intervalIntegrable a b) erf_integrand_pos hab
  unfold erf
  rw [← hsplit]
  linarith

theorem erf_zero : erf 0 = 0 := intervalIntegral.integral_same

theorem erf_neg_eq (x : ℝ) : erf (-x) = - erf x := by
  have h := intervalIntegral.integral_comp_neg (a := 0) (b := x)
    (f := fun t : ℝ => (2 / Real.sqrt Real.pi) * Real.exp (-t ^ 2))
  simp only [neg_sq, neg_zero] at h
  unfold erf
  rw [intervalIntegral.integral_symm (-x) 0, ← h]

theorem erf_nonneg_le_one (x : ℝ) (hx : 0 ≤ x) : erf x ≤ 1 := by
  unfold erf
  rw [intervalIntegral.integral_of_le hx]
  have hint : MeasureTheory.IntegrableOn
      (fun t : ℝ => (2 / Real.sqrt Real.pi) * Real.exp (-t ^ 2)) (Set.Ioi 0) := by
    apply MeasureTheory.Integrable.integrableOn
    have h1 : MeasureTheory.Integrable (fun t : ℝ => Real.exp (-1 * t ^ 2)) :=
      integrable_exp_neg_mul_sq one_pos
    have h2 := h1.const_mul (2 / Real.sqrt Real.pi)
    simpa using h2
  have hmono := MeasureTheory.setIntegral_mono_set (s := Set.Ioc 0 x) (t := Set.Ioi 0) hint
    (MeasureTheory.ae_of_all _ (fun t => (erf_integrand_pos t).le))
    (HasSubset.Subset.eventuallyLE Set.Ioc_subset_Ioi_self)
  refine le_trans hmono ?_
  have hgauss : (∫ t in Set.Ioi (0 : ℝ), Real.exp (-1 * t ^ 2)) = Real.sqrt Real.pi / 2 := by
    have := integral_gaussian_Ioi 1
    simpa using this
  have hpull : (∫ t in Set.Ioi (0 : ℝ), (2 / Real.sqrt Real.pi) * Real.exp (-t ^ 2))
      = (2 / Real.sqrt Real.pi) * ∫ t in Set.Ioi (0 : ℝ), Real.exp (-t ^ 2) :=
    MeasureTheory.integral_mul_left _ _
  rw [hpull]
  have hsimp : (∫ t in Set.Ioi (0 : ℝ), Real.exp (-t ^ 2)) = Real.sqrt Real.pi / 2 := by
    rw [← hgauss]
    congr 1
    funext t
    ring_nf
  rw [hsimp]
  have hs : Real.sqrt Real.pi ≠ 0 := (Real.sqrt_pos.mpr Real.pi_pos).ne'
  field_simp

theorem erf_le_one (x : ℝ) : erf x ≤ 1 := by
  rcases le_or_lt 0 x with hx | hx
  · exact erf_nonneg_le_one x hx
  · have h := erf_strictMono hx
    rw [erf_zero] at h
    linarith

theorem neg_one_le_erf (x : ℝ) : -1 ≤ erf x := by
  have h := erf_le_one (-x)
  rw [erf_neg_eq] at h
  linarith

theorem norm_cdf_nonneg (x : ℝ) : 0 ≤ norm_cdf x := by
  unfold norm_cdf
  have := neg_one_le_erf (x / Real.sqrt 2)
  linarith

theorem norm_cdf_le_one (x : ℝ) : norm_cdf x ≤ 1 := by
  unfold norm_cdf
  have := erf_le_one (x / Real.sqrt 2)
  linarith

theorem norm_cdf_strictMono : StrictMono norm_cdf := by
  intro a b h
  unfold norm_cdf
  have hs : (0 : ℝ) < Real.sqrt 2 := Real.sqrt_pos.mpr two_pos
  have h2 := erf_strictMono (div_lt_div_of_pos_right h hs)
  linarith

theorem norm_cdf_mono : Monotone norm_cdf := norm_cdf_strictMono.monotone

theorem prob_profit_eq_none (legs : List (PLLeg ℝ)) (spot T_years : ℝ) (ivs : List ℝ)
    (h : shortStrikes legs "put" = [] ∨ shortStrikes legs "call" = []
      ∨ T_years ≤ 0 ∨ ivs = [] ∨ ivs.sum / (ivs.length : ℝ) ≤ 0) :
    prob_profit legs spot T_years ivs = none := by
  unfold prob_profit
  rcases hp : shortStrikes legs "put" with _ | ⟨Kp, ps⟩
  · rfl
  rcases hc : shortStrikes legs "call" with _ | ⟨Kc, cs⟩
  · rfl
  dsimp only
  rcases h with h | h | h | h | h
  · rw [hp] at h; exact absurd h (List.cons_ne_nil _ _)
  · rw [hc] at h; exact absurd h (List.cons_ne_nil _ _)
  · rw [if_neg (not_lt.mpr h)]
  · subst h
    split
    · rfl
    · rfl
  · split
    · cases ivs with
      | nil => rfl
      | cons v vs =>
        dsimp only
        rw [if_neg (not_lt.mpr h)]
    · rfl

theorem compute_pl_analysis_prob (legs : List (PLLeg ℝ)) (spot : ℝ) (grid_points : ℕ)
    (urange tSeconds : ℝ) (ivs : List ℝ) :
    (compute_pl_analysis legs spot grid_points urange tSeconds ivs).probability_profit
      = (prob_profit legs spot (max tSeconds 0 / (365 * 24 * 3600)) ivs).map (fun p => p * 100) :=
  rfl

/-- C3 (amended): whenever the analytic probability-of-profit estimator of
`compute_and_store_pl_analysis` is inapplicable — no short put leg, no short
call leg, non-positive time to expiry, an empty implied-volatility lookup, or
a non-positive mean implied volatility — the stored `probability_profit` is
`None` (the probability is omitted); the code contains no grid-based fallback
estimator for the probability of profit. -/
theorem c3_probability_omitted (legs : List (PLLeg ℝ)) (spot : ℝ) (grid_points : ℕ)
    (urange tSeconds : ℝ) (ivs : List ℝ)
    (h : shortStrikes legs "put" = [] ∨ shortStrikes legs "call" = []
      ∨ max tSeconds 0 / (365 * 24 * 3600) ≤ 0 ∨ ivs = []
      ∨ ivs.sum / (ivs.length : ℝ) ≤ 0) :
    (compute_pl_analysis legs spot grid_points urange tSeconds ivs).probability_profit = none := by
  rw [compute_pl_analysis_prob, prob_profit_eq_none legs spot _ ivs h]
  rfl

/-- Witness for C3 (amended) at a concrete input: an empty leg set has no
short put, so the stored probability is `None`. -/
theorem c3_probability_omitted_witness :
    (compute_pl_analysis [] 100 5 (1/5) 3600 []).probability_profit = none :=
  c3_probability_omitted [] 100 5 (1/5) 3600 [] (Or.inl rfl)

/-- Counterexample to C3 as stated: for the two-leg put vertical spread
`legsV` (short put 5700, long put 5690) — which has no short call leg, so the
analytic estimator is inapplicable — with spot 5800, an hour to expiry and
implied volatility available, the stored `probability_profit` is `None`: no
probability is produced by any grid estimator; it is simply omitted. -/
theorem c3_counterexample :
    shortStrikes legsV "call" = []
    ∧ (compute_pl_analysis legsV 5800 5 (1/5) 3600 [1/5]).probability_profit = none := by
  have hc : shortStrikes legsV "call" = [] := by
    simp [shortStrikes, legsV]
  exact ⟨hc, by rw [compute_pl_analysis_prob, prob_profit_eq_none legsV 5800 _ [1/5] (Or.inr (Or.inl hc))]; rfl⟩

theorem prob_profit_eq_some (legs : List (PLLeg ℝ)) (spot T : ℝ) (ivs : List ℝ)
    (Kp Kc v : ℝ) (ps cs vs : List ℝ)
    (hps : shortStrikes legs "put" = Kp :: ps)
    (hcs : shortStrikes legs "call" = Kc :: cs)
    (hT : 0 < T) (hivs : ivs = v :: vs)
    (hsig : 0 < ivs.sum / (ivs.length : ℝ)) :
    prob_profit legs spot T ivs
      = some (norm_cdf (d2 spot Kp (ivs.sum / (ivs.length : ℝ)) T)
        - norm_cdf (d2 spot Kc (ivs.sum / (ivs.length : ℝ)) T)) := by
  subst hivs
  unfold prob_profit
  rw [hps, hcs]
  dsimp only
  rw [if_pos hT, if_pos hsig]

/-- C5 (amended): every probability of profit produced and stored by
`compute_and_store_pl_analysis` lies in `[0, 100]` PROVIDED the trade's first
short put strike is at most its first short call strike (with positive spot
and strikes, the normal shape of an iron condor); if the short put strike
exceeds the short call strike the stored value is negative (see the
counterexample), so the claim's unconditional `[0, 100]` bound fails. -/
theorem c5_probability_bounds (legs : List (PLLeg ℝ)) (spot : ℝ) (grid_points : ℕ)
    (urange tSeconds : ℝ) (ivs : List ℝ) (q Kp Kc : ℝ) (ps cs : List ℝ)
    (hps : shortStrikes legs "put" = Kp :: ps)
    (hcs : shortStrikes legs "call" = Kc :: cs)
    (hspot : 0 < spot) (hKp : 0 < Kp) (hKc : 0 < Kc) (hK : Kp ≤ Kc)
    (hq : (compute_pl_analysis legs spot grid_points urange tSeconds ivs).probability_profit
      = some q) :
    0 ≤ q ∧ q ≤ 100 := by
  rw [compute_pl_analysis_prob] at hq
  rw [Option.map_eq_some'] at hq
  obtain ⟨p, hp, hpq⟩ := hq
  unfold prob_profit at hp
  rw [hps, hcs] at hp
  dsimp only at hp
  rcases lt_or_le 0 (max tSeconds 0 / (365 * 24 * 3600)) with hT | hT
  · rw [if_pos hT] at hp
    cases ivs with
    | nil => exact absurd hp (by simp)
    | cons v vs =>
      dsimp only at hp
      rcases lt_or_le 0 ((v :: vs).sum / ((v :: vs).length : ℝ)) with hsig | hsig
      · rw [if_pos hsig] at hp
        rw [Option.some_inj] at hp
        set sigma := (v :: vs).sum / ((v :: vs).length : ℝ) with hsigdef
        set T := max tSeconds 0 / (365 * 24 * 3600) with hTdef
        have hden : 0 < sigma * Real.sqrt T := mul_pos hsig (Real.sqrt_pos.mpr hT)
        have hdivle : spot / Kc ≤ spot / Kp := div_le_div_of_nonneg_left hspot.le hKp hK
        have hlog : Real.log (spot / Kc) ≤ Real.log (spot / Kp) :=
          Real.log_le_log (div_pos hspot hKc) hdivle
        have hd2 : d2 spot Kc sigma T ≤ d2 spot Kp sigma T := by
          unfold d2
          exact div_le_div_of_nonneg_right (by linarith) hden.le
        have hmono := norm_cdf_mono hd2
        have hub := norm_cdf_le_one (d2 spot Kp sigma T)
        have hlb := norm_cdf_nonneg (d2 spot Kc sigma T)
        constructor
        · rw [← hpq, ← hp]; nlinarith
        · rw [← hpq, ← hp]; nlinarith
      · rw [if_neg (not_lt.mpr hsig)] at hp
        exact absurd hp (by simp)
  · rw [if_neg (not_lt.mpr hT)] at hp
    exact absurd hp (by simp)

/-- Counterexample to C5 as stated: for the leg set `legsN` whose short put
strike 110 exceeds its short call strike 90, with spot 100, one year to
expiry and implied volatility 1/5, a probability of profit IS produced and
stored, and the stored value is negative — outside `[0, 100]`. -/
theorem c5_counterexample :
    ∃ q : ℝ, (compute_pl_analysis legsN 100 5 (1/5) 31536000 [1/5]).probability_profit = some q
      ∧ q < 0 := by
  have hps : shortStrikes legsN "put" = [(110 : ℝ)] := by simp [shortStrikes, legsN]
  have hcs : shortStrikes legsN "call" = [(90 : ℝ)] := by simp [shortStrikes, legsN]
  have hT : (0 : ℝ) < max 31536000 0 / (365 * 24 * 3600) := by
    rw [max_eq_left (by norm_num : (0:ℝ) ≤ 31536000)]
    norm_num
  have hsig : (0 : ℝ) < ([(1:ℝ)/5].sum / (([(1:ℝ)/5].length : ℕ) : ℝ)) := by
    simp
  set T := max (31536000 : ℝ) 0 / (365 * 24 * 3600) with hTdef
  set sigma := ([(1:ℝ)/5].sum / (([(1:ℝ)/5].length : ℕ) : ℝ)) with hsigdef
  refine ⟨(norm_cdf (d2 100 110 sigma T) - norm_cdf (d2 100 90 sigma T)) * 100, ?_, ?_⟩
  · rw [compute_pl_analysis_prob,
      prob_profit_eq_some legsN 100 T [1/5] 110 90 (1/5) [] [] [] hps hcs hT rfl hsig]
    rfl
  · have hden : 0 < sigma * Real.sqrt T := mul_pos hsig (Real.sqrt_pos.mpr hT)
    have hlog : Real.log ((100 : ℝ) / 110) < Real.log ((100 : ℝ) / 90) :=
      Real.log_lt_log (by norm_num) (by norm_num)
    have hd2 : d2 100 110 sigma T < d2 100 90 sigma T := by
      unfold d2
      exact div_lt_div_of_pos_right (by linarith) hden
    have := norm_cdf_strictMono hd2
    nlinarith

/-- Concrete shared bound check: direct application input for the C5 witness. -/
theorem c5_probability_bounds_witness :
    ∃ q : ℝ, (compute_pl_analysis legsEq 100 5 (1/5) 31536000 [1/5]).probability_profit = some q
      ∧ 0 ≤ q ∧ q ≤ 100 := by
  have hps : shortStrikes legsEq "put" = [(100 : ℝ)] := by simp [shortStrikes, legsEq]
  have hcs : shortStrikes legsEq "call" = [(100 : ℝ)] := by simp [shortStrikes, legsEq]
  have hT : (0 : ℝ) < max 31536000 0 / (365 * 24 * 3600) := by
    rw [max_eq_left (by norm_num : (0:ℝ) ≤ 31536000)]
    norm_num
  have hsig : (0 : ℝ) < ([(1:ℝ)/5].sum / (([(1:ℝ)/5].length : ℕ) : ℝ)) := by
    simp
  have hq : (compute_pl_analysis legsEq 100 5 (1/5) 31536000 [1/5]).probability_profit
      = some ((norm_cdf (d2 100 100 ([(1:ℝ)/5].sum / (([(1:ℝ)/5].length : ℕ) : ℝ))
          (max 31536000 0 / (365 * 24 * 3600)))
        - norm_cdf (d2 100 100 ([(1:ℝ)/5].sum / (([(1:ℝ)/5].length : ℕ) : ℝ))
          (max 31536000 0 / (365 * 24 * 3600)))) * 100) := by
    rw [compute_pl_analysis_prob,
      prob_profit_eq_some legsEq 100 _ [1/5] 100 100 (1/5) [] [] [] hps hcs hT rfl hsig]
    rfl
  exact ⟨_, hq, c5_probability_bounds legsEq 100 5 (1/5) 31536000 [1/5] _ 100 100 [] []
    hps hcs (by norm_num) (by norm_num) (by norm_num) le_rfl hq⟩

theorem tradeRecUpd_closed (tid : String) (f : ℚ) (ns : String) (isEod : Bool) (cp : ℚ)
    (now : String) (r : TradeRow) (h : r.status = "closed") :
    tradeRecUpd tid f ns isEod cp now r = r := by
  unfold tradeRecUpd
  rw [if_neg]
  simp [h]

theorem legLoop_trade_recs (pfail : ℕ → Option String) (symbol : String)
    (midMaps : String → MidMap) (isEod : Bool) (now : String) (S : ℚ) :
    ∀ (l : List (LegRow × String)) (st : RunSt),
      (legLoop pfail symbol midMaps isEod now S l st).db.trade_recs = st.db.trade_recs := by
  intro l
  induction l with
  | nil => intro st; rfl
  | cons hd tl ih =>
    intro st
    obtain ⟨lg, expd⟩ := hd
    simp only [legLoop]
    cases pfail st.opIdx with
    | some e => rfl
    | none =>
      cases pfail (st.opIdx + 1) with
      | some e => rfl
      | none => rw [ih]

theorem rollup_preserves_closed (pfail : ℕ → Option String) (isEod : Bool) (now : String)
    (S : ℚ) : ∀ (ts : List (String × ℚ)) (st : RunSt) (i : ℕ) (r : TradeRow),
      st.db.trade_recs[i]? = some r → r.status = "closed" →
      (rollup pfail isEod now S ts st).db.trade_recs[i]? = some r := by
  intro ts
  induction ts with
  | nil => intro st i r hr _; exact hr
  | cons hd tl ih =>
    rintro ⟨⟨recs0, legs0, live0, pl0⟩, op0, tot0, lcp0, err0⟩ i r hr hcl
    obtain ⟨tid, sumPts⟩ := hd
    simp only [rollup]
    cases err0 with
    | some e => exact hr
    | none =>
      dsimp only
      cases hfin : (if isEod then eodFinalPnl ⟨recs0, legs0, live0, pl0⟩ S tid sumPts
          else Except.ok (sumPts * 100)) with
      | error e => exact hr
      | ok finalPnl =>
        cases hp : pfail op0 with
        | some e => exact hr
        | none =>
          dsimp only
          apply ih
          · simp only [List.getElem?_map, hr, Option.map_some']
            rw [tradeRecUpd_closed _ _ _ _ _ _ _ hcl]
          · exact hcl

/-- C1: a trade whose status is `'closed'` is left completely untouched by
any invocation of `update_trade_pnl` — its row (in particular `pnl`,
`status`, `exit_time`, `exit_price`) survives unchanged, because the rollup
UPDATE carries the guard `status != 'closed'` and the per-leg loop never
writes `trade_recommendations`. -/
theorem c1_closed_trade_untouched (pfail : ℕ → Option String) (symbol : String)
    (quote : Option ℚ) (midMaps : String → MidMap) (isEod : Bool) (now : String)
    (db : DB) (i : ℕ) (r : TradeRow)
    (hr : db.trade_recs[i]? = some r) (hcl : r.status = "closed") :
    (update_trade_pnl pfail symbol quote midMaps isEod now db).db.trade_recs[i]? = some r := by
  unfold update_trade_pnl
  dsimp only
  split
  · exact hr
  · cases quote with
    | none => exact hr
    | some S =>
      dsimp only
      apply rollup_preserves_closed
      · rw [legLoop_trade_recs]
        exact hr
      · exact hcl

/-- Witness for C1 at a concrete input: a closed trade (with recorded
`pnl = 50`, `exit_price = 60`, `exit_time = "t1"`) that still owns an open
leg is untouched by an EOD monitor cycle. -/
theorem c1_witness :
    (update_trade_pnl okO "SPX" (some 100) (fun _ => []) true "t9" dbW1).db.trade_recs[0]?
      = some { mkTrade "T1" "SPX" "E" 10 "closed" with
          pnl := some 50, exit_price := some 60, exit_time := some "t1" } :=
  c1_closed_trade_untouched okO "SPX" (some 100) (fun _ => []) true "t9" dbW1 0 _
    (by with_unfolding_all rfl) rfl

/-- C4: at EOD, a trade that HAS a stored PLAnalysis row but lacks a short
call leg (the two-leg put vertical spread `dbV`) makes the settlement rollup
raise (`iloc[0]` on an empty short-call selection) instead of falling back to
the raw-sum-times-multiplier method: the cycle ends with an error, the LEGS
have already been closed, but the TRADE row is left `'active'` — the
error branch is reachable and unhandled. -/
theorem c4_vertical_settlement_raises :
    (update_trade_pnl okO "SPX" (some 5800) (fun _ => []) true "t1" dbV).err
        = some (MErr.shortStrikeMissing "call")
    ∧ (update_trade_pnl okO "SPX" (some 5800) (fun _ => []) true "t1" dbV).db.trade_legs.map
        (fun l => l.status) = ["closed", "closed"]
    ∧ (update_trade_pnl okO "SPX" (some 5800) (fun _ => []) true "t1" dbV).db.trade_recs.map
        (fun r => r.status) = ["active"] := by
  refine ⟨?_, ?_, ?_⟩ <;> with_unfolding_all rfl

theorem legLoop_okO_err (symbol : String) (midMaps : String → MidMap) (isEod : Bool)
    (now : String) (S : ℚ) :
    ∀ (l : List (LegRow × String)) (st : RunSt), st.err = none →
      (legLoop okO symbol midMaps isEod now S l st).err = none := by
  intro l
  induction l with
  | nil => intro st h; exact h
  | cons hd tl ih =>
    intro st h
    obtain ⟨lg, expd⟩ := hd
    simp only [legLoop, okO]
    exact ih _ rfl

theorem rollup_intraday_okO_err (now : String) (S : ℚ) :
    ∀ (ts : List (String × ℚ)) (st : RunSt), st.err = none →
      (rollup okO false now S ts st).err = none := by
  intro ts
  induction ts with
  | nil => intro st h; exact h
  | cons hd tl ih =>
    rintro ⟨db0, op0, tot0, lcp0, err0⟩ h
    obtain ⟨tid, sumPts⟩ := hd
    cases err0 with
    | some e => exact absurd h (by simp)
    | none =>
      simp only [rollup, okO]
      exact ih _ rfl

/-- C9: when a leg's `(strike, option_type)` is absent from the per-expiry
mid-price map, intraday the current price falls back to the leg's entry
price and the incremental raw PnL is zero, while at EOD the current price is
`0` (expired worthless); and a missing price never fails the cycle — with
succeeding persistence, an intraday `update_trade_pnl` invocation always
completes without error, whatever prices are missing. -/
theorem c9_missing_price_fallback (l : LegRow) (perExp : MidMap)
    (hmiss : lookupMid perExp l.strike l.leg_type = none) :
    current_price false perExp l = l.entry_price
    ∧ raw_pts l (current_price false perExp l) = 0
    ∧ current_price true perExp l = 0
    ∧ ∀ (symbol : String) (midMaps : String → MidMap) (now : String) (quote : Option ℚ)
        (db : DB),
        (update_trade_pnl okO symbol quote midMaps false now db).err = none := by
  have hcp : current_price false perExp l = l.entry_price := by
    unfold current_price
    rw [if_neg (by simp), hmiss]
    rfl
  refine ⟨hcp, ?_, ?_, ?_⟩
  · rw [hcp]
    unfold raw_pts
    split <;> ring
  · unfold current_price
    rw [if_pos rfl, hmiss]
    rfl
  · intro symbol midMaps now quote db
    unfold update_trade_pnl
    dsimp only
    split
    · rfl
    · cases quote with
      | none => rfl
      | some S =>
        dsimp only
        apply rollup_intraday_okO_err
        apply legLoop_okO_err
        rfl

/-- Witness for C9 at a concrete input: a long call leg with entry price 5
and an empty mid-price map. -/
theorem c9_witness :
    current_price false [] (mkLeg "T" "L" "call" "long" 100 5 "open")
        = (mkLeg "T" "L" "call" "long" 100 5 "open").entry_price
    ∧ raw_pts (mkLeg "T" "L" "call" "long" 100 5 "open")
        (current_price false [] (mkLeg "T" "L" "call" "long" 100 5 "open")) = 0
    ∧ current_price true [] (mkLeg "T" "L" "call" "long" 100 5 "open") = 0
    ∧ ∀ (symbol : String) (midMaps : String → MidMap) (now : String) (quote : Option ℚ)
        (db : DB),
        (update_trade_pnl okO symbol quote midMaps false now db).err = none :=
  c9_missing_price_fallback (mkLeg "T" "L" "call" "long" 100 5 "open") []
    (by with_unfolding_all rfl)

theorem legLoop_err_from_pfail (pfail : ℕ → Option String) (symbol : String)
    (midMaps : String → MidMap) (isEod : Bool) (now : String) (S : ℚ) :
    ∀ (l : List (LegRow × String)) (st : RunSt) (e : String), st.err = none →
      (legLoop pfail symbol midMaps isEod now S l st).err = some (MErr.persist e) →
      ∃ k, pfail k = some e := by
  intro l
  induction l with
  | nil =>
    intro st e h0 h
    simp only [legLoop] at h
    rw [h0] at h
    exact absurd h (by simp)
  | cons hd tl ih =>
    intro st e h0 h
    obtain ⟨lg, expd⟩ := hd
    simp only [legLoop] at h
    cases hp : pfail st.opIdx with
    | some e1 =>
      rw [hp] at h
      simp only at h
      have he : e1 = e := by
        simpa using h
      exact ⟨st.opIdx, by rw [hp, he]⟩
    | none =>
      rw [hp] at h
      simp only at h
      cases hp2 : pfail (st.opIdx + 1) with
      | some e2 =>
        rw [hp2] at h
        simp only at h
        have he : e2 = e := by
          simpa using h
        exact ⟨st.opIdx + 1, by rw [hp2, he]⟩
      | none =>
        rw [hp2] at h
        simp only at h
        exact ih _ e rfl h

theorem eodFinalPnl_no_persist (db : DB) (S : ℚ) (tid : String) (sumPts : ℚ) (e : String) :
    eodFinalPnl db S tid sumPts ≠ Except.error (MErr.persist e) := by
  intro h
  unfold eodFinalPnl at h
  split at h
  · exact absurd h (by simp)
  · dsimp only at h
    split at h
    · exact absurd h (by simp)
    · split at h
      · exact absurd h (by simp)
      · exact absurd h (by simp)

theorem rollup_err_from_pfail (pfail : ℕ → Option String) (isEod : Bool) (now : String)
    (S : ℚ) : ∀ (ts : List (String × ℚ)) (st : RunSt) (e : String),
      (rollup pfail isEod now S ts st).err = some (MErr.persist e) →
      st.err = some (MErr.persist e) ∨ ∃ k, pfail k = some e := by
  intro ts
  induction ts with
  | nil => intro st e h; exact Or.inl h
  | cons hd tl ih =>
    rintro ⟨⟨recs0, legs0, live0, pl0⟩, op0, tot0, lcp0, err0⟩ e h
    obtain ⟨tid, sumPts⟩ := hd
    simp only [rollup] at h
    cases err0 with
    | some e0 => exact Or.inl h
    | none =>
      simp only at h
      cases hfin : (if isEod then eodFinalPnl ⟨recs0, legs0, live0, pl0⟩ S tid sumPts
          else Except.ok (sumPts * 100)) with
      | error e1 =>
        rw [hfin] at h
        simp only at h
        have he1 : e1 = MErr.persist e := by simpa using h
        subst he1
        rcases isEod with _ | _
        · rw [if_neg (by simp)] at hfin
          exact absurd hfin (by simp)
        · rw [if_pos rfl] at hfin
          exact absurd hfin (eodFinalPnl_no_persist _ _ _ _ _)
      | ok finalPnl =>
        rw [hfin] at h
        simp only at h
        cases hp : pfail op0 with
        | some e1 =>
          rw [hp] at h
          simp only at h
          have : e1 = e := by simpa using h
          exact Or.inr ⟨op0, by rw [hp, this]⟩
        | none =>
          rw [hp] at h
          simp only at h
          rcases ih _ e h with hl | hr
          · exact absurd hl (by simp)
          · exact Or.inr hr

/-- C10 (amended, monitor part): in `update_trade_pnl` every persistence
error raised by the storage collaborator propagates to the caller
unmodified — the cycle's error is exactly a message the oracle produced, the
core performs no retries and fabricates no error of its own — and a failure
at the very first write surfaces as the cycle's error whenever there is
anything to process. -/
theorem c10_monitor_error_propagation (pfail : ℕ → Option String) (symbol : String)
    (quote : Option ℚ) (midMaps : String → MidMap) (isEod : Bool) (now : String) (db : DB) :
    (∀ e, (update_trade_pnl pfail symbol quote midMaps isEod now db).err
        = some (MErr.persist e) → ∃ k, pfail k = some e)
    ∧ (∀ e S, legsJoin db symbol ≠ [] → quote = some S → pfail 0 = some e →
        (update_trade_pnl pfail symbol quote midMaps isEod now db).err
          = some (MErr.persist e)) := by
  constructor
  · intro e h
    unfold update_trade_pnl at h
    dsimp only at h
    split at h
    · exact absurd h (by simp)
    · cases quote with
      | none => exact absurd h (by simp)
      | some S =>
        dsimp only at h
        rcases rollup_err_from_pfail pfail isEod now S _ _ e h with hl | hr
        · exact legLoop_err_from_pfail pfail symbol midMaps isEod now S _ _ e rfl hl
        · exact hr
  · intro e S hne hq hp0
    subst hq
    unfold update_trade_pnl
    dsimp only
    rw [if_neg (by simpa using hne)]
    cases hlj : legsJoin db symbol with
    | nil => exact absurd hlj hne
    | cons hd tl =>
      obtain ⟨lg, expd⟩ := hd
      simp only [legLoop, hp0]
      rfl

/-- Witness for C10 (amended): with an oracle failing at the very first
write, the cycle on `dbC2` ends with exactly that error. -/
theorem c10_monitor_witness :
    (update_trade_pnl pfailW "SPX" (some 100) mmC2 false "t1" dbC2).err
      = some (MErr.persist "boom") :=
  (c10_monitor_error_propagation pfailW "SPX" (some 100) mmC2 false "t1" dbC2).2 "boom" 100
    (of_decide_eq_true (by with_unfolding_all rfl)) rfl rfl

theorem lastCpOf_cons (midMaps : String → MidMap) (isEod : Bool) (p : LegRow × String)
    (l : List (LegRow × String)) (d : ℚ) :
    lastCpOf midMaps isEod (p :: l) d
      = lastCpOf midMaps isEod l (current_price isEod (midMaps p.2) p.1) := by
  cases l with
  | nil => rfl
  | cons q l' =>
    unfold lastCpOf
    rw [List.getLast?_cons_cons, List.getLast?_eq_getLast (q :: l') (by simp)]

theorem legLoop_ok_spec (pfail : ℕ → Option String) (symbol : String)
    (midMaps : String → MidMap) (isEod : Bool) (now : String) (S : ℚ) :
    ∀ (l : List (LegRow × String)) (st : RunSt),
      (legLoop pfail symbol midMaps isEod now S l st).err = none →
      (legLoop pfail symbol midMaps isEod now S l st).totals = totalsOf midMaps isEod l st.totals
      ∧ (legLoop pfail symbol midMaps isEod now S l st).lastCp
          = lastCpOf midMaps isEod l st.lastCp
      ∧ (legLoop pfail symbol midMaps isEod now S l st).db.pl_analysis = st.db.pl_analysis := by
  intro l
  induction l with
  | nil => intro st _; exact ⟨rfl, rfl, rfl⟩
  | cons hd tl ih =>
    intro st herr
    obtain ⟨lg, expd⟩ := hd
    simp only [legLoop] at herr ⊢
    cases hp : pfail st.opIdx with
    | some e =>
      rw [hp] at herr
      exact absurd herr (by simp)
    | none =>
      rw [hp] at herr
      dsimp only at herr ⊢
      cases hp2 : pfail (st.opIdx + 1) with
      | some e =>
        rw [hp2] at herr
        exact absurd herr (by simp)
      | none =>
        rw [hp2] at herr
        dsimp only at herr ⊢
        obtain ⟨h1, h2, h3⟩ := ih _ herr
        refine ⟨?_, ?_, ?_⟩
        · rw [h1]; rfl
        · rw [h2, lastCpOf_cons]
        · rw [h3]

theorem addTotal_keys_mem (ts : List (String × ℚ)) (tid : String) (x : ℚ) (k : String) :
    k ∈ (addTotal ts tid x).map Prod.fst ↔ k ∈ ts.map Prod.fst ∨ k = tid := by
  induction ts with
  | nil => simp [addTotal]
  | cons hd tl ih =>
    obtain ⟨k0, v0⟩ := hd
    unfold addTotal
    by_cases h : k0 = tid
    · rw [if_pos (by simpa using h)]
      subst h
      simp
      tauto
    · rw [if_neg (by simpa using h)]
      simp [ih]
      tauto

theorem addTotal_keys_nodup (ts : List (String × ℚ)) (tid : String) (x : ℚ)
    (h : (ts.map Prod.fst).Nodup) : ((addTotal ts tid x).map Prod.fst).Nodup := by
  induction ts with
  | nil => simp [addTotal]
  | cons hd tl ih =>
    obtain ⟨k0, v0⟩ := hd
    simp only [List.map_cons, List.nodup_cons] at h
    unfold addTotal
    by_cases hk : k0 = tid
    · rw [if_pos (by simpa using hk)]
      simp only [List.map_cons, List.nodup_cons]
      exact h
    · rw [if_neg (by simpa using hk)]
      simp only [List.map_cons, List.nodup_cons]
      constructor
      · rw [addTotal_keys_mem]
        push_neg
        exact ⟨h.1, fun hkeq => hk hkeq⟩
      · exact ih h.2

theorem totalsOf_keys_mem (midMaps : String → MidMap) (isEod : Bool) (k : String) :
    ∀ (lj : List (LegRow × String)) (init : List (String × ℚ)),
      (k ∈ (totalsOf midMaps isEod lj init).map Prod.fst
        ↔ k ∈ init.map Prod.fst ∨ k ∈ lj.map (fun p => p.1.trade_id)) := by
  intro lj
  induction lj with
  | nil => intro init; simp [totalsOf]
  | cons hd tl ih =>
    intro init
    unfold totalsOf at ih ⊢
    simp only [List.foldl_cons]
    rw [ih, addTotal_keys_mem]
    simp only [List.map_cons, List.mem_cons]
    tauto

theorem totalsOf_keys_nodup (midMaps : String → MidMap) (isEod : Bool) :
    ∀ (lj : List (LegRow × String)) (init : List (String × ℚ)),
      (init.map Prod.fst).Nodup → ((totalsOf midMaps isEod lj init).map Prod.fst).Nodup := by
  intro lj
  induction lj with
  | nil => intro init h; exact h
  | cons hd tl ih =>
    intro init h
    unfold totalsOf at ih ⊢
    simp only [List.foldl_cons]
    exact ih _ (addTotal_keys_nodup _ _ _ h)

theorem updLeg_keyOf (legId : String) (isEod : Bool) (now : String) (raw cp : ℚ)
    (x : LegRow) : keyOf (updLeg legId isEod now raw cp x) = keyOf x := by
  unfold updLeg
  split
  · rfl
  · rfl

theorem forall2_key_refl (l : List LegRow) :
    List.Forall₂ (fun a b => keyOf a = keyOf b) l l :=
  List.forall₂_same.mpr (fun _ _ => rfl)

theorem forall2_key_map_updLeg (legId : String) (isEod : Bool) (now : String) (raw cp : ℚ) :
    ∀ (l : List LegRow),
      List.Forall₂ (fun a b => keyOf a = keyOf b) l (l.map (updLeg legId isEod now raw cp)) := by
  intro l
  induction l with
  | nil => simp
  | cons hd tl ih =>
    simp only [List.map_cons]
    exact List.Forall₂.cons (updLeg_keyOf legId isEod now raw cp hd).symm ih

theorem forall2_key_trans : ∀ {l1 l2 l3 : List LegRow},
    List.Forall₂ (fun a b => keyOf a = keyOf b) l1 l2 →
    List.Forall₂ (fun a b => keyOf a = keyOf b) l2 l3 →
    List.Forall₂ (fun a b => keyOf a = keyOf b) l1 l3 := by
  intro l1 l2 l3 h12
  induction h12 generalizing l3 with
  | nil =>
    intro h23
    cases h23
    exact List.Forall₂.nil
  | cons hab ht ih =>
    intro h23
    cases h23 with
    | cons hbc ht' => exact List.Forall₂.cons (hab.trans hbc) (ih ht')

theorem legLoop_legs_rel (pfail : ℕ → Option String) (symbol : String)
    (midMaps : String → MidMap) (isEod : Bool) (now : String) (S : ℚ) :
    ∀ (l : List (LegRow × String)) (st : RunSt),
      List.Forall₂ (fun a b => keyOf a = keyOf b) st.db.trade_legs
        (legLoop pfail symbol midMaps isEod now S l st).db.trade_legs := by
  intro l
  induction l with
  | nil => intro st; exact forall2_key_refl _
  | cons hd tl ih =>
    intro st
    obtain ⟨lg, expd⟩ := hd
    simp only [legLoop]
    cases pfail st.opIdx with
    | some e => exact forall2_key_refl _
    | none =>
      cases pfail (st.opIdx + 1) with
      | some e => exact forall2_key_refl _
      | none =>
        dsimp only
        have hrec := ih (RunSt.mk
          (DB.mk st.db.trade_recs
            (List.map (updLeg lg.leg_id isEod now
              (raw_pts lg (current_price isEod (midMaps expd) lg))
              (current_price isEod (midMaps expd) lg)) st.db.trade_legs)
            (st.db.live_pnl ++ [snapRow symbol now S isEod lg
              (current_price isEod (midMaps expd) lg)
              (raw_pts lg (current_price isEod (midMaps expd) lg))])
            st.db.pl_analysis)
          (st.opIdx + 2)
          (addTotal st.totals lg.trade_id (raw_pts lg (current_price isEod (midMaps expd) lg)))
          (current_price isEod (midMaps expd) lg)
          none)
        exact forall2_key_trans
          (forall2_key_map_updLeg lg.leg_id isEod now
            (raw_pts lg (current_price isEod (midMaps expd) lg))
            (current_price isEod (midMaps expd) lg) st.db.trade_legs) hrec

theorem keyOf_fields {a b : LegRow} (h : keyOf a = keyOf b) :
    a.trade_id = b.trade_id ∧ a.direction = b.direction ∧ a.leg_type = b.leg_type
      ∧ a.strike = b.strike := by
  unfold keyOf at h
  simpa [Prod.ext_iff] using h

theorem forall2_filter_key (p : LegRow → Bool)
    (hp : ∀ a b, keyOf a = keyOf b → p a = p b) :
    ∀ {l1 l2 : List LegRow}, List.Forall₂ (fun a b => keyOf a = keyOf b) l1 l2 →
      List.Forall₂ (fun a b => keyOf a = keyOf b) (l1.filter p) (l2.filter p) := by
  intro l1 l2 h
  induction h with
  | nil => simp
  | cons hab ht ih =>
    simp only [List.filter_cons]
    rw [hp _ _ hab]
    split
    · exact List.Forall₂.cons hab ih
    · exact ih

theorem forall2_head?_cases : ∀ {l1 l2 : List LegRow},
    List.Forall₂ (fun a b => keyOf a = keyOf b) l1 l2 →
    (l1.head? = none ∧ l2.head? = none)
    ∨ ∃ a b, l1.head? = some a ∧ l2.head? = some b ∧ keyOf a = keyOf b := by
  intro l1 l2 h
  cases h with
  | nil => exact Or.inl ⟨rfl, rfl⟩
  | cons hab ht => exact Or.inr ⟨_, _, rfl, rfl, hab⟩

theorem eodFinalPnl_congr (db1 db2 : DB) (S : ℚ) (tid : String) (s : ℚ)
    (hpl : db1.pl_analysis = db2.pl_analysis)
    (hlegs : List.Forall₂ (fun a b => keyOf a = keyOf b) db1.trade_legs db2.trade_legs) :
    eodFinalPnl db1 S tid s = eodFinalPnl db2 S tid s := by
  unfold eodFinalPnl
  rw [hpl]
  cases hh : (db2.pl_analysis.filter (fun p => p.trade_id == tid)).head? with
  | none => rfl
  | some pl =>
    dsimp only
    have hinfo : List.Forall₂ (fun a b => keyOf a = keyOf b)
        (db1.trade_legs.filter (fun l => l.trade_id == tid))
        (db2.trade_legs.filter (fun l => l.trade_id == tid)) :=
      forall2_filter_key _ (fun a b hk => by rw [(keyOf_fields hk).1]) hlegs
    have hsp := forall2_filter_key (fun l => l.direction == "short" && l.leg_type == "put")
      (fun a b hk => by dsimp only; rw [(keyOf_fields hk).2.1, (keyOf_fields hk).2.2.1]) hinfo
    rcases forall2_head?_cases hsp with ⟨hn1, hn2⟩ | ⟨a, b, ha, hb, hk⟩
    · rw [hn1, hn2]
    · rw [ha, hb]
      dsimp only
      have hsc := forall2_filter_key (fun l => l.direction == "short" && l.leg_type == "call")
        (fun a b hk => by dsimp only; rw [(keyOf_fields hk).2.1, (keyOf_fields hk).2.2.1]) hinfo
      rcases forall2_head?_cases hsc with ⟨hn1, hn2⟩ | ⟨a2, b2, ha2, hb2, hk2⟩
      · rw [hn1, hn2]
      · rw [ha2, hb2]
        dsimp only
        rw [(keyOf_fields hk).2.2.2, (keyOf_fields hk2).2.2.2]

theorem rollup_invariants (pfail : ℕ → Option String) (isEod : Bool) (now : String) (S : ℚ) :
    ∀ (ts : List (String × ℚ)) (st : RunSt),
      (rollup pfail isEod now S ts st).db.trade_legs = st.db.trade_legs
      ∧ (rollup pfail isEod now S ts st).db.pl_analysis = st.db.pl_analysis
      ∧ (rollup pfail isEod now S ts st).lastCp = st.lastCp := by
  intro ts
  induction ts with
  | nil => intro st; exact ⟨rfl, rfl, rfl⟩
  | cons hd tl ih =>
    rintro ⟨⟨recs0, legs0, live0, pl0⟩, op0, tot0, lcp0, err0⟩
    obtain ⟨tid, sumPts⟩ := hd
    simp only [rollup]
    cases err0 with
    | some e => exact ⟨rfl, rfl, rfl⟩
    | none =>
      dsimp only
      cases hfin : (if isEod then eodFinalPnl ⟨recs0, legs0, live0, pl0⟩ S tid sumPts
          else Except.ok (sumPts * 100)) with
      | error e => exact ⟨rfl, rfl, rfl⟩
      | ok finalPnl =>
        cases hp : pfail op0 with
        | some e => exact ⟨rfl, rfl, rfl⟩
        | none =>
          dsimp only
          exact ih _

theorem rollup_err_none_start (pfail : ℕ → Option String) (isEod : Bool) (now : String)
    (S : ℚ) : ∀ (ts : List (String × ℚ)) (st : RunSt),
      (rollup pfail isEod now S ts st).err = none → st.err = none := by
  intro ts
  induction ts with
  | nil => intro st h; exact h
  | cons hd tl ih =>
    rintro ⟨⟨recs0, legs0, live0, pl0⟩, op0, tot0, lcp0, err0⟩ h
    obtain ⟨tid, sumPts⟩ := hd
    simp only [rollup] at h
    cases err0 with
    | some e => exact h
    | none => rfl

theorem rollup_skips (pfail : ℕ → Option String) (isEod : Bool) (now : String) (S : ℚ) :
    ∀ (ts : List (String × ℚ)) (st : RunSt) (i : ℕ) (r : TradeRow),
      st.db.trade_recs[i]? = some r → (∀ p ∈ ts, p.1 ≠ r.trade_id) →
      (rollup pfail isEod now S ts st).db.trade_recs[i]? = some r := by
  intro ts
  induction ts with
  | nil => intro st i r hr _; exact hr
  | cons hd tl ih =>
    rintro ⟨⟨recs0, legs0, live0, pl0⟩, op0, tot0, lcp0, err0⟩ i r hr hne
    obtain ⟨tid, sumPts⟩ := hd
    simp only [rollup]
    cases err0 with
    | some e => exact hr
    | none =>
      dsimp only
      cases hfin : (if isEod then eodFinalPnl ⟨recs0, legs0, live0, pl0⟩ S tid sumPts
          else Except.ok (sumPts * 100)) with
      | error e => exact hr
      | ok finalPnl =>
        cases hp : pfail op0 with
        | some e => exact hr
        | none =>
          dsimp only
          apply ih
          · simp only [List.getElem?_map, hr, Option.map_some']
            have htid : (r.trade_id == tid) = false := by
              have := hne (tid, sumPts) (by simp)
              simp only [ne_eq] at this
              simp [beq_iff_eq]
              intro hc
              exact this hc.symm
            unfold tradeRecUpd
            rw [if_neg]
            simp [htid]
          · intro p hp'
            exact hne p (by simp [hp'])

theorem eodFinalPnl_ext (db1 db2 : DB) (S : ℚ) (tid : String) (s : ℚ)
    (h1 : db1.trade_legs = db2.trade_legs) (h2 : db1.pl_analysis = db2.pl_analysis) :
    eodFinalPnl db1 S tid s = eodFinalPnl db2 S tid s := by
  unfold eodFinalPnl
  rw [h1, h2]

theorem rollup_eod_sets (pfail : ℕ → Option String) (now : String) (S : ℚ) :
    ∀ (ts : List (String × ℚ)) (st : RunSt) (i : ℕ) (r : TradeRow) (s : ℚ),
      (rollup pfail true now S ts st).err = none →
      (ts.map Prod.fst).Nodup →
      (r.trade_id, s) ∈ ts →
      st.db.trade_recs[i]? = some r →
      r.status ≠ "closed" →
      ∃ v, eodFinalPnl st.db S r.trade_id s = Except.ok v ∧
        (rollup pfail true now S ts st).db.trade_recs[i]? = some
          { r with
            pnl := some v, status := "closed", exit_price := some st.lastCp, exit_time := some now } := by
  intro ts
  induction ts with
  | nil => intro st i r s _ _ hmem _ _; exact absurd hmem (by simp)
  | cons hd tl ih =>
    rintro ⟨⟨recs0, legs0, live0, pl0⟩, op0, tot0, lcp0, err0⟩ i r s hout hnd hmem hr hopen
    obtain ⟨tid0, s0⟩ := hd
    simp only [rollup] at hout ⊢
    cases err0 with
    | some e =>
      dsimp only at hout
      exact absurd hout (by simp)
    | none =>
      dsimp only at hout ⊢
      simp only [if_true] at hout ⊢
      cases hfin : eodFinalPnl (DB.mk recs0 legs0 live0 pl0) S tid0 s0 with
      | error e =>
        rw [hfin] at hout
        dsimp only at hout
        exact absurd hout (by simp)
      | ok f0 =>
        rw [hfin] at hout
        dsimp only at hout
        cases hp : pfail op0 with
        | some e =>
          rw [hp] at hout
          dsimp only at hout
          exact absurd hout (by simp)
        | none =>
          rw [hp] at hout
          dsimp only at hout ⊢
          have hnd2 : (tl.map Prod.fst).Nodup := (List.nodup_cons.mp (by simpa using hnd)).2
          have hnotin : tid0 ∉ tl.map Prod.fst := (List.nodup_cons.mp (by simpa using hnd)).1
          rcases List.mem_cons.mp hmem with heq | hmem2
          · have h1 : r.trade_id = tid0 := by
              have := congrArg Prod.fst heq
              simpa using this
            have h2 : s = s0 := by
              have := congrArg Prod.snd heq
              simpa using this
            subst h2
            rw [← h1] at hfin hnotin
            have hcond : (r.trade_id == r.trade_id && r.status != "closed") = true := by
              simp [bne_iff_ne, hopen]
            have hrow1 : (List.map (tradeRecUpd r.trade_id f0 "closed" true lcp0 now) recs0)[i]?
                = some { r with
                    pnl := some f0, status := "closed", exit_price := some lcp0, exit_time := some now } := by
              simp only [List.getElem?_map, hr, Option.map_some']
              unfold tradeRecUpd
              rw [if_pos hcond]
              rfl
            refine ⟨f0, hfin, ?_⟩
            rw [← h1]
            apply rollup_skips
            · exact hrow1
            · intro p hptl
              intro hcontra
              apply hnotin
              rw [← hcontra]
              exact List.mem_map.mpr ⟨p, hptl, rfl⟩
          · have hne0 : r.trade_id ≠ tid0 := by
              intro hcontra
              apply hnotin
              rw [← hcontra]
              exact List.mem_map.mpr ⟨(r.trade_id, s), hmem2, rfl⟩
            have hrow1 : (List.map (tradeRecUpd tid0 f0 "closed" true lcp0 now) recs0)[i]?
                = some r := by
              simp only [List.getElem?_map, hr, Option.map_some']
              unfold tradeRecUpd
              rw [if_neg]
              simp only [Bool.and_eq_true, beq_iff_eq]
              intro hcontra
              exact hne0 hcontra.1
            obtain ⟨v, hv, hrow⟩ := ih (RunSt.mk
              (DB.mk (List.map (tradeRecUpd tid0 f0 "closed" true lcp0 now) recs0)
                legs0 live0 pl0) (op0 + 1) tot0 lcp0 none) i r s hout hnd2 hmem2 hrow1 hopen
            refine ⟨v, ?_, hrow⟩
            rw [eodFinalPnl_ext (DB.mk recs0 legs0 live0 pl0)
              (DB.mk (List.map (tradeRecUpd tid0 f0 "closed" true lcp0 now) recs0)
                legs0 live0 pl0) S r.trade_id s rfl rfl]
            exact hv

/-- C2 (amended): every trade settled by an error-free EOD invocation of
`update_trade_pnl` has its record updated with `status = 'closed'`,
`exit_time = now` and `pnl` = the settlement PnL chosen in the rollup step
(`eodFinalPnl`: the PLAnalysis band when available, else raw sum × 100) —
but `exit_price` is set to the CURRENT PRICE OF THE LAST PROCESSED LEG (the
leftover `@cp` query parameter of the per-leg loop), NOT to
`entry_price + final_pnl` as the claim states. -/
theorem c2_eod_settlement (pfail : ℕ → Option String) (symbol : String)
    (midMaps : String → MidMap) (now : String) (db : DB) (S : ℚ) (i : ℕ) (r : TradeRow)
    (hout : (update_trade_pnl pfail symbol (some S) midMaps true now db).err = none)
    (hr : db.trade_recs[i]? = some r)
    (hopen : r.status ≠ "closed")
    (hmem : r.trade_id ∈ (legsJoin db symbol).map (fun p => p.1.trade_id)) :
    ∃ s v, (r.trade_id, s) ∈ totalsOf midMaps true (legsJoin db symbol) []
      ∧ eodFinalPnl db S r.trade_id s = Except.ok v
      ∧ (update_trade_pnl pfail symbol (some S) midMaps true now db).db.trade_recs[i]? = some
        { r with
          pnl := some v, status := "closed", exit_price := some (lastCpOf midMaps true (legsJoin db symbol) 0), exit_time := some now } := by
  have hlj : legsJoin db symbol ≠ [] := by
    intro h
    rw [h] at hmem
    simp at hmem
  unfold update_trade_pnl at hout ⊢
  dsimp only at hout ⊢
  rw [if_neg (by simp only [List.isEmpty_eq_true]; exact hlj)] at hout ⊢
  have hst1 : (legLoop pfail symbol midMaps true now S (legsJoin db symbol)
      (RunSt.mk db 0 [] 0 none)).err = none :=
    rollup_err_none_start pfail true now S _ _ hout
  obtain ⟨htot, hlcp, hplan⟩ := legLoop_ok_spec pfail symbol midMaps true now S
    (legsJoin db symbol) (RunSt.mk db 0 [] 0 none) hst1
  have hkeys : r.trade_id ∈ (totalsOf midMaps true (legsJoin db symbol) []).map Prod.fst := by
    rw [totalsOf_keys_mem]
    exact Or.inr hmem
  obtain ⟨p, hpmem, hpfst⟩ := List.mem_map.mp hkeys
  obtain ⟨kk, ss⟩ := p
  dsimp only at hpfst
  subst hpfst
  have hnodup : ((totalsOf midMaps true (legsJoin db symbol) []).map Prod.fst).Nodup :=
    totalsOf_keys_nodup midMaps true (legsJoin db symbol) [] (by simp)
  have hrecs := legLoop_trade_recs pfail symbol midMaps true now S (legsJoin db symbol)
    (RunSt.mk db 0 [] 0 none)
  have hr1 : (legLoop pfail symbol midMaps true now S (legsJoin db symbol)
      (RunSt.mk db 0 [] 0 none)).db.trade_recs[i]? = some r := by
    rw [hrecs]
    exact hr
  obtain ⟨v, hv, hrow⟩ := rollup_eod_sets pfail now S
    (legLoop pfail symbol midMaps true now S (legsJoin db symbol)
      (RunSt.mk db 0 [] 0 none)).totals
    (legLoop pfail symbol midMaps true now S (legsJoin db symbol)
      (RunSt.mk db 0 [] 0 none)) i r ss hout
    (by rw [htot]; exact hnodup)
    (by rw [htot]; exact hpmem)
    hr1 hopen
  refine ⟨ss, v, hpmem, ?_, ?_⟩
  · rw [eodFinalPnl_congr db
      (legLoop pfail symbol midMaps true now S (legsJoin db symbol)
        (RunSt.mk db 0 [] 0 none)).db S r.trade_id ss hplan.symm
      (legLoop_legs_rel pfail symbol midMaps true now S (legsJoin db symbol)
        (RunSt.mk db 0 [] 0 none))]
    exact hv
  · rw [hlcp] at hrow
    exact hrow

/-- Witness for C2 (amended) at a concrete input: the two-leg trade of
`dbC2` settled at EOD. -/
theorem c2_eod_settlement_witness :
    ∃ s v, ((mkTrade "T1" "SPX" "E" 10 "active").trade_id, s)
        ∈ totalsOf mmC2 true (legsJoin dbC2 "SPX") []
      ∧ eodFinalPnl dbC2 100 (mkTrade "T1" "SPX" "E" 10 "active").trade_id s = Except.ok v
      ∧ (update_trade_pnl okO "SPX" (some 100) mmC2 true "t1" dbC2).db.trade_recs[0]? = some
        { mkTrade "T1" "SPX" "E" 10 "active" with
          pnl := some v, status := "closed", exit_price := some (lastCpOf mmC2 true (legsJoin dbC2 "SPX") 0), exit_time := some "t1" } :=
  c2_eod_settlement okO "SPX" mmC2 "t1" dbC2 100 0 (mkTrade "T1" "SPX" "E" 10 "active")
    (by with_unfolding_all rfl) (by with_unfolding_all rfl)
    (of_decide_eq_true (by with_unfolding_all rfl))
    (of_decide_eq_true (by with_unfolding_all rfl))

/-- Counterexample to C2 as stated: settling `dbC2` at EOD (entry price 10,
two long call legs with raw points 2 and -1, no PLAnalysis row, so
`final_pnl = 1 × 100 = 100`) closes the trade with `exit_time = now` and
`pnl = 100` as claimed, but writes `exit_price = 1` — the last processed
leg's current mid price — instead of `entry_price + final_pnl = 110`. -/
theorem c2_counterexample :
    ((update_trade_pnl okO "SPX" (some 100) mmC2 true "t1" dbC2).db.trade_recs.map
        (fun r => (r.status, r.pnl, r.exit_time, r.exit_price)))
      = [("closed", some 100, some "t1", some 1)]
    ∧ ¬ (((update_trade_pnl okO "SPX" (some 100) mmC2 true "t1" dbC2).db.trade_recs.map
        (fun r => r.exit_price)) = [some (10 + 100)]) :=
  of_decide_eq_true (by with_unfolding_all rfl)

/-- C8 (amended): every VALIDATION failure of `generate_0dte_trade` (no
spot, empty chain, unusable strike selection or unknown strategy, missing
mid price) aborts before any write, and a trade-insert failure persists
nothing; but creation is NOT atomic across the two inserts: when the trade
insert succeeds and the legs insert then fails (reported errors or a raised
exception), the Trade row remains persisted WITHOUT its legs.  With both
inserts succeeding, trade and legs are persisted together. -/
theorem c8_generation_paths (cfg : GenCfg) (db : DB) :
    (cfg.spot = none → generate_0dte_trade cfg db = db)
    ∧ (cfg.chain.isEmpty = true → generate_0dte_trade cfg db = db)
    ∧ (chooseLegs cfg = none → generate_0dte_trade cfg db = db)
    ∧ (∀ legs, chooseLegs cfg = some legs → pricedLegs cfg.chain legs = none →
        generate_0dte_trade cfg db = db)
    ∧ (∀ e, cfg.recIns = InsRes.errs e ∨ cfg.recIns = InsRes.raised e →
        generate_0dte_trade cfg db = db)
    ∧ (∀ legs priced, chooseLegs cfg = some legs → pricedLegs cfg.chain legs = some priced →
        cfg.recIns = InsRes.ok → cfg.legIns ≠ InsRes.ok → cfg.spot ≠ none →
        ¬ cfg.chain.isEmpty = true →
        generate_0dte_trade cfg db
          = { db with trade_recs := db.trade_recs ++ [recRowOf cfg priced] })
    ∧ (∀ legs priced, chooseLegs cfg = some legs → pricedLegs cfg.chain legs = some priced →
        cfg.recIns = InsRes.ok → cfg.legIns = InsRes.ok → cfg.spot ≠ none →
        ¬ cfg.chain.isEmpty = true →
        generate_0dte_trade cfg db
          = { db with
              trade_recs := db.trade_recs ++ [recRowOf cfg priced], trade_legs := db.trade_legs ++ legRowsOf cfg priced }) := by
  unfold generate_0dte_trade generate_0dte_trade_body
  refine ⟨?_, ?_, ?_, ?_, ?_, ?_, ?_⟩
  · intro h
    rw [h]
  · intro h
    cases cfg.spot with
    | none => rfl
    | some v =>
      dsimp only
      rw [if_pos h]
  · intro h
    cases cfg.spot with
    | none => rfl
    | some v =>
      dsimp only
      split
      · rfl
      · rw [h]
  · intro legs hsel h
    cases cfg.spot with
    | none => rfl
    | some v =>
      dsimp only
      split
      · rfl
      · rw [hsel]
        dsimp only
        rw [h]
  · intro e he
    cases cfg.spot with
    | none => rfl
    | some v =>
      dsimp only
      split
      · rfl
      · cases hsel : chooseLegs cfg with
        | none => rfl
        | some legs =>
          dsimp only
          cases hpr : pricedLegs cfg.chain legs with
          | none => rfl
          | some priced =>
            dsimp only
            rcases he with he | he <;> rw [he]
  · intro legs priced hsel hpr hrec hleg hspot hchain
    cases hsp : cfg.spot with
    | none => exact absurd hsp hspot
    | some v =>
      dsimp only
      rw [if_neg hchain, hsel]
      dsimp only
      rw [hpr]
      dsimp only
      rw [hrec]
      dsimp only
      cases hli : cfg.legIns with
      | ok => exact absurd hli hleg
      | errs m => rfl
      | raised m => rfl
  · intro legs priced hsel hpr hrec hleg hspot hchain
    cases hsp : cfg.spot with
    | none => exact absurd hsp hspot
    | some v =>
      dsimp only
      rw [if_neg hchain, hsel]
      dsimp only
      rw [hpr]
      dsimp only
      rw [hrec]
      dsimp only
      rw [hleg]

/-- Witness for C8 (amended) at a concrete input: with `cfgV` (valid
vertical-spread data, trade insert ok, legs insert reporting errors) the
resulting warehouse holds exactly the trade row and no legs. -/
theorem c8_generation_paths_witness :
    generate_0dte_trade cfgV emptyDB
      = { emptyDB with trade_recs := emptyDB.trade_recs ++ [recRowOf cfgV pricedV] } :=
  (c8_generation_paths cfgV emptyDB).2.2.2.2.2.1
    [⟨"short", "put", 5⟩, ⟨"long", "put", 4⟩] pricedV
    (by with_unfolding_all rfl) (by with_unfolding_all rfl) rfl
    (of_decide_eq_true (by with_unfolding_all rfl))
    (of_decide_eq_true (by with_unfolding_all rfl))
    (of_decide_eq_true (by with_unfolding_all rfl))

/-- Counterexample to C8 as stated: running the generator with `cfgV`
(validation passes, trade insert succeeds, LEGS insert fails) on an empty
warehouse persists the Trade row with NO leg rows — creation is not
atomic. -/
theorem c8_counterexample :
    (generate_0dte_trade cfgV emptyDB).trade_recs.length = 1
    ∧ (generate_0dte_trade cfgV emptyDB).trade_legs = [] :=
  of_decide_eq_true (by with_unfolding_all rfl)

/-- Counterexample to C10 as stated: during trade creation a persistence
error RAISED by the storage collaborator does not propagate to the caller:
with `cfgVraise` the body's trade insert raises `"boom"`, the generator's
catch-all `except` swallows it, and the caller receives a plain unchanged
warehouse with no error indication. -/
theorem c10_counterexample :
    (generate_0dte_trade_body cfgVraise emptyDB).raised = some "boom"
    ∧ generate_0dte_trade cfgVraise emptyDB = emptyDB :=
  of_decide_eq_true (by with_unfolding_all rfl)
